import Mathlib

set_option maxRecDepth 4000

namespace BsonToJson

/- BSON element type tags (src/src/bson-to-json.cc lines 52-72). -/

def BSON_DATA_NUMBER : Nat := 1
def BSON_DATA_STRING : Nat := 2
def BSON_DATA_OBJECT : Nat := 3
def BSON_DATA_ARRAY : Nat := 4
def BSON_DATA_BINARY : Nat := 5
def BSON_DATA_UNDEFINED : Nat := 6
def BSON_DATA_OID : Nat := 7
def BSON_DATA_BOOLEAN : Nat := 8
def BSON_DATA_DATE : Nat := 9
def BSON_DATA_NULL : Nat := 10
def BSON_DATA_REGEXP : Nat := 11
def BSON_DATA_DBPOINTER : Nat := 12
def BSON_DATA_CODE : Nat := 13
def BSON_DATA_SYMBOL : Nat := 14
def BSON_DATA_CODE_W_SCOPE : Nat := 15
def BSON_DATA_INT : Nat := 16
def BSON_DATA_TIMESTAMP : Nat := 17
def BSON_DATA_LONG : Nat := 18
def BSON_DATA_DECIMAL128 : Nat := 19
def BSON_DATA_MIN_KEY : Nat := 0xff
def BSON_DATA_MAX_KEY : Nat := 0x7f

/-- Bytes of a string literal, as natural numbers. -/
def strBytes (s : String) : List Nat := s.toList.map Char.toNat

/-- Returns the char to use to escape c if it requires a single-character
escape, else returns 0 (src/src/bson-to-json.cc `getEscape`, lines 75-86). -/
def getEscape (c : Nat) : Nat :=
  if c = 0x08 then 98        -- 'b'
  else if c = 0x09 then 116  -- 't'
  else if c = 0x0a then 110  -- 'n'
  else if c = 0x0c then 102  -- 'f'
  else if c = 0x0d then 114  -- 'r'
  else if c = 0x22 then c
  else if c = 0x5c then c
  else 0

/-- Lowercase hex digit table (`HEX_DIGITS`, line 88). -/
def HEX_DIGITS : List Nat := strBytes "0123456789abcdef"

/-- Hex digit for a nibble (`hexNib`, lines 90-94). -/
def hexNib (nib : Nat) : Nat := HEX_DIGITS.getD nib 0

/-- Number of base-10 digits in the decimal representation of v, plus one for
the field-name null terminator (`nDigits`, lines 100-111). -/
def nDigits (v : Nat) : Nat :=
  if v < 10 then 2
  else if v < 100 then 3
  else if v < 1000 then 4
  else if v < 10000 then 5
  else if v < 100000 then 6
  else if v < 1000000 then 7
  else if v < 10000000 then 8
  else if v < 100000000 then 9
  else if v < 1000000000 then 10
  else 11

/-- Two-digit decimal pair table (src/src/fast_itoa.h `digits`). -/
def digits : List Nat := strBytes
  ("0001020304050607080910111213141516171819" ++
   "2021222324252627282930313233343536373839" ++
   "4041424344454647484950515253545556575859" ++
   "6061626364656667686970717273747576777879" ++
   "8081828384858687888990919293949596979899")

/-- Loop of `fast_itoa` (src/src/fast_itoa.h lines 59-75): peel two digits per
iteration while the value is at least 100, then write the leading one or two
digits. Fuel is an upper bound on iterations (any value above 10 is exact for
64-bit inputs). -/
def itoaAux (fuel : Nat) (v : Nat) (acc : List Nat) : List Nat :=
  match fuel with
  | 0 => acc
  | fuel + 1 =>
    if v ≥ 100 then
      let index := (v % 100) * 2
      itoaAux fuel (v / 100) (digits.getD index 0 :: digits.getD (index + 1) 0 :: acc)
    else if v < 10 then (48 + v) :: acc
    else digits.getD (v * 2) 0 :: digits.getD (v * 2 + 1) 0 :: acc

/-- Decimal ASCII of a signed integer (`fast_itoa`, src/src/fast_itoa.h
lines 50-83): sign handling then the two-digits-per-iteration loop. -/
def fast_itoa (val : Int) : List Nat :=
  let ds := itoaAux 20 val.natAbs []
  if val < 0 then 45 :: ds else ds

/-- Escape predicate of the escape writers: `x < 0x20 || x == 0x22 || x == 0x5c`
(src/src/bson-to-json.cc, comment at line 662 and the scalar condition at
line 643). -/
def needsEscape (c : Nat) : Bool := c < 0x20 || c == 0x22 || c == 0x5c

/-- Bytes of the `\ u 0 0 ch cl` sequence written by
`Transcoder::writeControlChar` (lines 626-632). -/
def writeControlChar (c : Nat) : List Nat :=
  [92, 117, 48, 48, if c &&& 0xf0 ≠ 0 then 49 else 48, hexNib (c &&& 0xf)]

/-- Result of an escape-writer run: the input cursor and the output bytes, or
an out-of-bounds input access (reading `in` at an index not below `in_len`,
which in the C++ source is undefined behaviour). -/
inductive WOut where
  | ok : Nat → List Nat → WOut
  | oob : Nat → List Nat → WOut
deriving DecidableEq, Repr

/-- Baseline length-bounded escape writer
`writeEscapedChars(size_t, Enabler<ISA::BASELINE>)` (lines 635-655): copy n
bytes, replacing each byte that needs escaping with its single-character
escape or `\u00XX` form. -/
def wecNBase (inp : List Nat) : Nat → Nat → List Nat → WOut
  | 0, inIdx, out => .ok inIdx out
  | n + 1, inIdx, out =>
    match inp.get? inIdx with
    | none => .oob inIdx out
    | some c =>
      if c ≥ 0x20 ∧ c ≠ 0x22 ∧ c ≠ 0x5c then
        wecNBase inp n (inIdx + 1) (out ++ [c])
      else if getEscape c ≠ 0 then
        wecNBase inp n (inIdx + 1) (out ++ [92, getEscape c])
      else
        wecNBase inp n (inIdx + 1) (out ++ writeControlChar c)

/-- Loop of the baseline null-terminated escape writer
`writeEscapedChars(Enabler<ISA::BASELINE>)` (lines 841-861): scan until the
null byte, escaping as needed; the scan has no bound against `in_len`, so a
missing terminator drives the read cursor out of bounds. Fuel is a model
artifact; the wrapper below supplies enough for the scan to reach the end of
the buffer. -/
def wecNTBaseAux (inp : List Nat) : Nat → Nat → List Nat → WOut
  | 0, inIdx, out => .oob inIdx out
  | fuel + 1, inIdx, out =>
    match inp.get? inIdx with
    | none => .oob inIdx out
    | some c =>
      if c = 0 then .ok inIdx out
      else if c ≥ 0x20 ∧ c ≠ 0x22 ∧ c ≠ 0x5c then
        wecNTBaseAux inp fuel (inIdx + 1) (out ++ [c])
      else if getEscape c ≠ 0 then
        wecNTBaseAux inp fuel (inIdx + 1) (out ++ [92, getEscape c])
      else
        wecNTBaseAux inp fuel (inIdx + 1) (out ++ writeControlChar c)

/-- Baseline null-terminated escape writer (lines 841-861). On exit the input
cursor rests on the null terminator (`inIdx--` after the loop). -/
def wecNTBase (inp : List Nat) (inIdx : Nat) (out : List Nat) : WOut :=
  wecNTBaseAux inp (inp.length + 1 - inIdx) inIdx out

/-- Baseline ObjectId hex writer `transcodeObjectId(Enabler<ISA::BASELINE>)`
(lines 981-990): a quote, two lowercase hex digits per input byte for 12
bytes, and a closing quote. -/
def oidBase (inp : List Nat) (inIdx : Nat) (out : List Nat) : Nat × List Nat :=
  (inIdx + 12,
   out ++ [0x22] ++
     (((inp.drop inIdx).take 12).flatMap fun b => [hexNib (b >>> 4), hexNib (b &&& 0xf)]) ++
     [0x22])

/-- Little-endian int32 read (`readLE<int32_t>`, lines 461-467): four raw
bytes reassembled and interpreted as a two's-complement 32-bit value. `none`
models a `memcpy` that would read past the end of the input buffer. -/
def readLE32 (inp : List Nat) (i : Nat) : Option Int :=
  match inp.get? i, inp.get? (i + 1), inp.get? (i + 2), inp.get? (i + 3) with
  | some b0, some b1, some b2, some b3 =>
    let v : Nat := b0 + 256 * (b1 + 256 * (b2 + 256 * b3))
    some (if v < 2 ^ 31 then (v : Int) else (v : Int) - 2 ^ 32)
  | _, _, _, _ => none

/-- Little-endian int64 read (`readLE<int64_t>`). -/
def readLE64 (inp : List Nat) (i : Nat) : Option Int :=
  match inp.get? i, inp.get? (i + 1), inp.get? (i + 2), inp.get? (i + 3),
        inp.get? (i + 4), inp.get? (i + 5), inp.get? (i + 6), inp.get? (i + 7) with
  | some b0, some b1, some b2, some b3, some b4, some b5, some b6, some b7 =>
    let v : Nat := b0 + 256 * (b1 + 256 * (b2 + 256 * (b3 + 256 *
                   (b4 + 256 * (b5 + 256 * (b6 + 256 * b7))))))
    some (if v < 2 ^ 63 then (v : Int) else (v : Int) - 2 ^ 64)
  | _, _, _, _, _, _, _, _ => none

/-- Little-endian bytes of a 32-bit value (used to build test inputs). -/
def le32Bytes (v : Nat) : List Nat :=
  [v % 256, v / 256 % 256, v / 65536 % 256, v / 16777216 % 256]

/-- Little-endian bytes of a 64-bit value (used to build test inputs). -/
def le64Bytes (v : Nat) : List Nat :=
  [v % 256, v / 2 ^ 8 % 256, v / 2 ^ 16 % 256, v / 2 ^ 24 % 256,
   v / 2 ^ 32 % 256, v / 2 ^ 40 % 256, v / 2 ^ 48 % 256, v / 2 ^ 56 % 256]

/-- Populate cache `paths` mapping (`PopulateInfo::paths`, line 277): a
field-path keyed map of ObjectId-to-JSON-bytes maps, modelled as association
lists with full 12-byte ObjectId equality (`ObjectIdEquals`, lines 166-172). -/
abbrev Paths := List (List Nat × List (List Nat × List Nat))

/-- Missing-id record (`PopulateInfo::missingIds`, line 278): field path to
the set of missing ObjectIds. -/
abbrev Missing := List (List Nat × List (List Nat))

/-- Insertion into `missingIds[path]`
(`missingIds.try_emplace(currentPath, ObjectIdSet()).first->second.insert(id)`,
lines 1091-1092). -/
def insertMissing (path id : List Nat) : Missing → Missing
  | [] => [(path, [id])]
  | (p, ids) :: rest =>
    if p = path then (p, if id ∈ ids then ids else ids ++ [id]) :: rest
    else (p, ids) :: insertMissing path id rest

/-- Mutable transcoder state threaded through the walker: input cursor,
output bytes so far, `currentPath`, `docId`, and the shared
`PopulateInfo::missingIds` record. -/
structure TState where
  inIdx : Nat
  out : List Nat
  currentPath : List Nat
  docId : List Nat
  missing : Missing
deriving DecidableEq, Repr

/-- Outcome of a walker call: success, the error-flag-plus-message return of
the C++ code, an out-of-bounds input read (undefined behaviour in the
source), or model fuel exhaustion. -/
inductive TRes where
  | ok : TState → TRes
  | err : String → TState → TRes
  | oob : TState → TRes
  | spin : TRes
deriving DecidableEq, Repr

/-- The three ISA-specialized routines a `Transcoder<isa>` instantiation uses:
the length-bounded escape writer, the null-terminated escape writer, and the
ObjectId hex writer. -/
structure IsaBundle where
  wecN : List Nat → Nat → Nat → List Nat → WOut
  wecNT : List Nat → Nat → List Nat → WOut
  oid : List Nat → Nat → List Nat → Nat × List Nat

/-- Broken-down UTC time, mirroring the `tm` fields the date writer reads. -/
structure Tm where
  tm_year : Int
  tm_mon : Int
  tm_mday : Int
  tm_hour : Int
  tm_min : Int
  tm_sec : Int
deriving DecidableEq, Repr

/-- Modelled from the spec: the external libc `gmtime` ("Compute a UTC
broken-down time", spec section 4.1) is out of scope for the source; this is
the standard civil-from-days algorithm for seconds since the Unix epoch,
with `tm_year` relative to 1900 and `tm_mon` zero-based as in `<ctime>`. -/
def gmtimeModel (secs : Int) : Tm :=
  let days := Int.fdiv secs 86400
  let sod := secs - days * 86400
  let z := days + 719468
  let era := Int.fdiv z 146097
  let doe := z - era * 146097
  let yoe := (doe - doe / 1460 + doe / 36524 - doe / 146096) / 365
  let y := yoe + era * 400
  let doy := doe - (365 * yoe + yoe / 4 - yoe / 100)
  let mp := (5 * doy + 2) / 153
  let d := doy - (153 * mp + 2) / 5 + 1
  let m := mp + (if mp < 10 then 3 else -9)
  let y := y + (if m ≤ 2 then 1 else 0)
  { tm_year := y - 1900, tm_mon := m - 1, tm_mday := d,
    tm_hour := sod / 3600, tm_min := (sod / 60) % 60, tm_sec := sod % 60 }

/-- Two zero-padded decimal digits copied from the pair table
(`memcpy(out + outIdx, digits + k * 2, 2)` in the date case). -/
def digitsPair (k : Int) : List Nat :=
  [digits.getD (2 * k.toNat) 0, digits.getD (2 * k.toNat + 1) 0]

/-- Output bytes of the date case (lines 1282-1334): quote, full-width year,
zero-padded month/day/hour/minute/second, then the `.000Z"` tail whose
leading zeros are overwritten right-justified by the formatted millis. -/
def dateBytes (value : Int) : List Nat :=
  let seconds := Int.tdiv value 1000
  let millis := Int.tmod value 1000
  let gmt := gmtimeModel seconds
  let mdigs := fast_itoa millis
  [0x22] ++ fast_itoa (gmt.tm_year + 1900) ++
  [45] ++ digitsPair (gmt.tm_mon + 1) ++
  [45] ++ digitsPair gmt.tm_mday ++
  [84] ++ digitsPair gmt.tm_hour ++
  [58] ++ digitsPair gmt.tm_min ++
  [58] ++ digitsPair gmt.tm_sec ++
  (strBytes ".000").take (4 - mdigs.length) ++ mdigs ++ [90, 0x22]

/-- ObjectId value case of `Transcoder::transcodeObject` (lines 1222-1248):
capture `docId` for a top-level `_id`, substitute the precomputed JSON bytes
on a populate hit, otherwise write the quoted 24-hex representation; the
walker never touches `missingIds`. -/
def transcodeOidValue (B : IsaBundle) (paths : Paths) (inp : List Nat)
    (baseKey : List Nat) (st : TState) : TRes :=
  if st.inIdx + 12 ≤ inp.length then
    let id := (inp.drop st.inIdx).take 12
    let st := if baseKey = [] ∧ st.currentPath = strBytes "_id" then
      { st with docId := id } else st
    let hit : Option (List Nat) :=
      match List.lookup st.currentPath paths with
      | some m => List.lookup id m
      | none => none
    match hit with
    | some doc => .ok { st with out := st.out ++ doc, inIdx := st.inIdx + 12 }
    | none =>
      let r := B.oid inp st.inIdx st.out
      .ok { st with inIdx := r.1, out := r.2 }
  else .err "Truncated BSON (in ObjectId)" st

/-- ObjectId case of `Transcoder::getMissingIds` (lines 1082-1102): on a
configured path whose map lacks the id, record it in `missingIds[path]`;
no output is produced. -/
def getMissingOidValue (paths : Paths) (inp : List Nat) (st : TState) : TRes :=
  if st.inIdx + 12 ≤ inp.length then
    let id := (inp.drop st.inIdx).take 12
    let st :=
      match List.lookup st.currentPath paths with
      | some m =>
        match List.lookup id m with
        | none => { st with missing := insertMissing st.currentPath id st.missing }
        | some _ => st
      | none => st
    .ok { st with inIdx := st.inIdx + 12 }
  else .err "Truncated BSON (in ObjectId)" st

mutual

/-- Document walker `Transcoder::transcodeObject` (src/src/bson-to-json.cc
lines 1164-1410): read the little-endian size, run the two size checks, emit
the opening bracket and enter the element loop. `dtoa` is the external
double-to-shortest-decimal converter (out of scope per the spec); `fuel`
bounds the recursion depth of the model. -/
def transcodeObject (B : IsaBundle) (dtoa : List Nat → List Nat) (paths : Paths)
    (inp : List Nat) (fuel : Nat) (isArray : Bool) (baseKey : List Nat)
    (st : TState) : TRes :=
  match fuel with
  | 0 => .spin
  | f + 1 =>
    match readLE32 inp st.inIdx with
    | none => .oob st
    | some size =>
      let st := { st with inIdx := st.inIdx + 4 }
      if size < 5 then .err "BSON size must be >= 5" st
      else if size.toNat + st.inIdx - 4 > inp.length then
        .err "BSON size exceeds input length" st
      else
        transcodeLoop B dtoa paths inp f isArray baseKey 0
          { st with out := st.out ++ [if isArray then 0x5b else 0x7b] }

/-- Element loop of `Transcoder::transcodeObject` (lines 1180-1405): read the
type byte, stop on 0, write the separating comma, handle the field name
(skipped by digit count in arrays, escaped and quoted otherwise), then
dispatch on the element type. -/
def transcodeLoop (B : IsaBundle) (dtoa : List Nat → List Nat) (paths : Paths)
    (inp : List Nat) (fuel : Nat) (isArray : Bool) (baseKey : List Nat)
    (arrIdx : Nat) (st : TState) : TRes :=
  match fuel with
  | 0 => .spin
  | f + 1 =>
    match inp.get? st.inIdx with
    | none => .oob st
    | some elementType =>
      let st := { st with inIdx := st.inIdx + 1 }
      if elementType = 0 then
        .ok { st with out := st.out ++ [if isArray then 0x5d else 0x7d] }
      else
        let st := if arrIdx ≠ 0 then { st with out := st.out ++ [0x2c] } else st
        if isArray then
          transcodeElem B dtoa paths inp f isArray baseKey arrIdx elementType
            { st with inIdx := st.inIdx + nDigits arrIdx, currentPath := baseKey }
        else
          let keyStart := st.inIdx
          match B.wecNT inp st.inIdx (st.out ++ [0x22]) with
          | .oob i o => .oob { st with inIdx := i, out := o }
          | .ok i o =>
            let name := (inp.drop keyStart).take (i - keyStart)
            transcodeElem B dtoa paths inp f isArray baseKey arrIdx elementType
              { st with inIdx := i + 1, out := o ++ [0x22, 0x3a],
                        currentPath := if baseKey = [] then name
                                       else baseKey ++ [0x2e] ++ name }

/-- Value dispatch of `Transcoder::transcodeObject` (the `switch` at lines
1208-1402), followed by the `arrIdx++` and the next loop iteration. -/
def transcodeElem (B : IsaBundle) (dtoa : List Nat → List Nat) (paths : Paths)
    (inp : List Nat) (fuel : Nat) (isArray : Bool) (baseKey : List Nat)
    (arrIdx : Nat) (elementType : Nat) (st : TState) : TRes :=
  match fuel with
  | 0 => .spin
  | f + 1 =>
    if elementType = BSON_DATA_STRING then
      match readLE32 inp st.inIdx with
      | none => .oob st
      | some size =>
        let st := { st with inIdx := st.inIdx + 4 }
        if size ≤ 0 ∨ size.toNat > inp.length - st.inIdx then
          .err "Bad string length" st
        else
          match B.wecN inp (size.toNat - 1) st.inIdx (st.out ++ [0x22]) with
          | .oob i o => .oob { st with inIdx := i, out := o }
          | .ok i o =>
            transcodeLoop B dtoa paths inp f isArray baseKey (arrIdx + 1)
              { st with inIdx := i + 1, out := o ++ [0x22] }
    else if elementType = BSON_DATA_OID then
      match transcodeOidValue B paths inp baseKey st with
      | .ok st' => transcodeLoop B dtoa paths inp f isArray baseKey (arrIdx + 1) st'
      | r => r
    else if elementType = BSON_DATA_INT then
      if st.inIdx + 4 ≤ inp.length then
        match readLE32 inp st.inIdx with
        | none => .oob st
        | some value =>
          transcodeLoop B dtoa paths inp f isArray baseKey (arrIdx + 1)
            { st with inIdx := st.inIdx + 4, out := st.out ++ fast_itoa value }
      else .err "Truncated BSON (in Int)" st
    else if elementType = BSON_DATA_NUMBER then
      if st.inIdx + 8 ≤ inp.length then
        transcodeLoop B dtoa paths inp f isArray baseKey (arrIdx + 1)
          { st with inIdx := st.inIdx + 8,
                    out := st.out ++ dtoa ((inp.drop st.inIdx).take 8) }
      else .err "Truncated BSON (in Number)" st
    else if elementType = BSON_DATA_DATE then
      if st.inIdx + 8 ≤ inp.length then
        match readLE64 inp st.inIdx with
        | none => .oob st
        | some value =>
          transcodeLoop B dtoa paths inp f isArray baseKey (arrIdx + 1)
            { st with inIdx := st.inIdx + 8, out := st.out ++ dateBytes value }
      else .err "Truncated BSON (in Date)" st
    else if elementType = BSON_DATA_BOOLEAN then
      if st.inIdx + 1 ≤ inp.length then
        match inp.get? st.inIdx with
        | none => .oob st
        | some val =>
          transcodeLoop B dtoa paths inp f isArray baseKey (arrIdx + 1)
            { st with inIdx := st.inIdx + 1,
                      out := st.out ++ (if val = 1 then strBytes "true"
                                        else strBytes "false") }
      else .err "Truncated BSON (in Boolean)" st
    else if elementType = BSON_DATA_OBJECT then
      match transcodeObject B dtoa paths inp f false st.currentPath st with
      | .ok st' => transcodeLoop B dtoa paths inp f isArray baseKey (arrIdx + 1) st'
      | r => r
    else if elementType = BSON_DATA_ARRAY then
      match transcodeObject B dtoa paths inp f true st.currentPath st with
      | .ok st' =>
        match inp.get? (st'.inIdx - 1) with
        | none => .oob st'
        | some b =>
          if b ≠ 0 then .err "Invalid array terminator byte" st'
          else transcodeLoop B dtoa paths inp f isArray baseKey (arrIdx + 1) st'
      | r => r
    else if elementType = BSON_DATA_NULL then
      transcodeLoop B dtoa paths inp f isArray baseKey (arrIdx + 1)
        { st with out := st.out ++ strBytes "null" }
    else if elementType = BSON_DATA_LONG then
      if st.inIdx + 8 ≤ inp.length then
        match readLE64 inp st.inIdx with
        | none => .oob st
        | some value =>
          transcodeLoop B dtoa paths inp f isArray baseKey (arrIdx + 1)
            { st with inIdx := st.inIdx + 8, out := st.out ++ fast_itoa value }
      else .err "Truncated BSON (in Long)" st
    else if elementType = BSON_DATA_UNDEFINED then
      transcodeLoop B dtoa paths inp f isArray baseKey (arrIdx + 1) st
    else if elementType = BSON_DATA_DECIMAL128 ∨ elementType = BSON_DATA_BINARY ∨
            elementType = BSON_DATA_REGEXP ∨ elementType = BSON_DATA_SYMBOL ∨
            elementType = BSON_DATA_TIMESTAMP ∨ elementType = BSON_DATA_MIN_KEY ∨
            elementType = BSON_DATA_MAX_KEY ∨ elementType = BSON_DATA_CODE ∨
            elementType = BSON_DATA_CODE_W_SCOPE ∨ elementType = BSON_DATA_DBPOINTER then
      .err "BSON type incompatible with JSON" st
    else
      .err "Unknown BSON type" st

end

/-- Key-terminator scan of `Transcoder::getMissingIds` (lines 1060-1062):
`while (in[keyEnd] != 0 && keyEnd < inLen) keyEnd++`. Fuel is supplied by the
wrapper; the result is the index of the terminator, or `in_len` when none is
found before the end of the buffer. -/
def scanKeyEndAux (inp : List Nat) : Nat → Nat → Nat
  | 0, keyEnd => keyEnd
  | fuel + 1, keyEnd =>
    match inp.get? keyEnd with
    | none => keyEnd
    | some 0 => keyEnd
    | some _ => scanKeyEndAux inp fuel (keyEnd + 1)

/-- Key-terminator scan (lines 1059-1062). -/
def scanKeyEnd (inp : List Nat) (keyStart : Nat) : Nat :=
  scanKeyEndAux inp (inp.length + 1 - keyStart) keyStart

mutual

/-- Missing-id walker `Transcoder::getMissingIds` (lines 1037-1162): the same
document traversal as `transcodeObject` but producing no output, recording
populate misses in `missingIds`. -/
def getMissingIds (paths : Paths) (inp : List Nat) (fuel : Nat)
    (isArray : Bool) (baseKey : List Nat) (st : TState) : TRes :=
  match fuel with
  | 0 => .spin
  | f + 1 =>
    match readLE32 inp st.inIdx with
    | none => .oob st
    | some size =>
      let st := { st with inIdx := st.inIdx + 4 }
      if size < 5 then .err "BSON size must be >= 5" st
      else if size.toNat + st.inIdx - 4 > inp.length then
        .err "BSON size exceeds input length" st
      else getMissingLoop paths inp f isArray baseKey 0 st

/-- Element loop of `Transcoder::getMissingIds` (lines 1050-1159). -/
def getMissingLoop (paths : Paths) (inp : List Nat) (fuel : Nat)
    (isArray : Bool) (baseKey : List Nat) (arrIdx : Nat) (st : TState) : TRes :=
  match fuel with
  | 0 => .spin
  | f + 1 =>
    match inp.get? st.inIdx with
    | none => .oob st
    | some elementType =>
      let st := { st with inIdx := st.inIdx + 1 }
      if elementType = 0 then .ok st
      else if isArray then
        getMissingElem paths inp f isArray baseKey arrIdx elementType
          { st with inIdx := st.inIdx + nDigits arrIdx, currentPath := baseKey }
      else
        let keyStart := st.inIdx
        let keyEnd := scanKeyEnd inp keyStart
        if keyEnd ≥ inp.length then .err "Truncated BSON (in key)" st
        else
          let name := (inp.drop keyStart).take (keyEnd - keyStart)
          getMissingElem paths inp f isArray baseKey arrIdx elementType
            { st with inIdx := keyEnd + 1,
                      currentPath := if baseKey = [] then name
                                     else baseKey ++ [0x2e] ++ name }

/-- Value dispatch of `Transcoder::getMissingIds` (the `switch` at lines
1074-1156), followed by `arrIdx++` and the next loop iteration. -/
def getMissingElem (paths : Paths) (inp : List Nat) (fuel : Nat)
    (isArray : Bool) (baseKey : List Nat) (arrIdx : Nat) (elementType : Nat)
    (st : TState) : TRes :=
  match fuel with
  | 0 => .spin
  | f + 1 =>
    if elementType = BSON_DATA_STRING then
      match readLE32 inp st.inIdx with
      | none => .oob st
      | some size =>
        let st := { st with inIdx := st.inIdx + 4 }
        if size ≤ 0 ∨ size.toNat > inp.length - st.inIdx then
          .err "Bad string length" st
        else
          getMissingLoop paths inp f isArray baseKey (arrIdx + 1)
            { st with inIdx := st.inIdx + size.toNat }
    else if elementType = BSON_DATA_OID then
      match getMissingOidValue paths inp st with
      | .ok st' => getMissingLoop paths inp f isArray baseKey (arrIdx + 1) st'
      | r => r
    else if elementType = BSON_DATA_INT then
      let st := { st with inIdx := st.inIdx + 4 }
      if st.inIdx > inp.length then .err "Truncated BSON (in Int)" st
      else getMissingLoop paths inp f isArray baseKey (arrIdx + 1) st
    else if elementType = BSON_DATA_NUMBER ∨ elementType = BSON_DATA_DATE ∨
            elementType = BSON_DATA_LONG then
      let st := { st with inIdx := st.inIdx + 8 }
      if st.inIdx > inp.length then .err "Truncated BSON" st
      else getMissingLoop paths inp f isArray baseKey (arrIdx + 1) st
    else if elementType = BSON_DATA_BOOLEAN then
      let st := { st with inIdx := st.inIdx + 1 }
      if st.inIdx > inp.length then .err "Truncated BSON (in Boolean)" st
      else getMissingLoop paths inp f isArray baseKey (arrIdx + 1) st
    else if elementType = BSON_DATA_OBJECT then
      match getMissingIds paths inp f false st.currentPath st with
      | .ok st' => getMissingLoop paths inp f isArray baseKey (arrIdx + 1) st'
      | r => r
    else if elementType = BSON_DATA_ARRAY then
      match getMissingIds paths inp f true st.currentPath st with
      | .ok st' =>
        match inp.get? (st'.inIdx - 1) with
        | none => .oob st'
        | some b =>
          if b ≠ 0 then .err "Invalid array terminator byte" st'
          else getMissingLoop paths inp f isArray baseKey (arrIdx + 1) st'
      | r => r
    else if elementType = BSON_DATA_NULL ∨ elementType = BSON_DATA_UNDEFINED then
      getMissingLoop paths inp f isArray baseKey (arrIdx + 1) st
    else if elementType = BSON_DATA_DECIMAL128 ∨ elementType = BSON_DATA_BINARY ∨
            elementType = BSON_DATA_REGEXP ∨ elementType = BSON_DATA_SYMBOL ∨
            elementType = BSON_DATA_TIMESTAMP ∨ elementType = BSON_DATA_MIN_KEY ∨
            elementType = BSON_DATA_MAX_KEY ∨ elementType = BSON_DATA_CODE ∨
            elementType = BSON_DATA_CODE_W_SCOPE ∨ elementType = BSON_DATA_DBPOINTER then
      .err "BSON type incompatible with JSON" st
    else
      .err "Unknown BSON type" st

end

/-- Initial transcoder state: cursors at zero, no output, empty path, and the
caller-supplied missing-id record. -/
def initState (missing : Missing) : TState :=
  { inIdx := 0, out := [], currentPath := [], docId := List.replicate 12 0,
    missing := missing }

/-- Baseline ISA routines (`Enabler<ISA::BASELINE>` overloads). -/
def baselineBundle : IsaBundle :=
  { wecN := wecNBase, wecNT := wecNTBase, oid := oidBase }

/-- Capacity chosen by `Transcoder::ensureSpace(n)` (lines 469-477) together
with `Transcoder::resize` (lines 444-454): when the pending write does not fit
(`outIdx + n < outLen` fails), the buffer is reallocated to
`(std::max(n, outLen) * 3) >> 1`; `resize` updates `outLen` to exactly that
value when allocation succeeds. -/
def ensureSpaceNewLen (outIdx n outLen : Nat) : Nat :=
  if outIdx + n < outLen then outLen
  else (max n outLen * 3) >>> 1

/-- Dummy external double converter, usable on inputs without doubles. -/
def dtoaNone : List Nat → List Nat := fun _ => []

/-- Top-level document whose only element has type `undefined` (0x06) with
field name `a`: `08 00 00 00 06 61 00 00`. -/
def undefinedOnlyDoc : List Nat := [8, 0, 0, 0, 6, 0x61, 0, 0]

/-- Top-level document whose string element's field name has no null
terminator before the end of the 10-byte buffer. -/
def noTerminatorDoc : List Nat := [0x0a, 0, 0, 0, 2, 0x61, 0x61, 0x61, 0x61, 0x61]

/-- Document of size 12 containing a nested document whose size field is 4. -/
def nestedBadSizeDoc : List Nat := [0x0c, 0, 0, 0, 3, 0x61, 0, 4, 0, 0, 0, 0]

/-- Body (after the 4 size bytes) of a document with one int32 element
`a = 1`; the terminator sits at offset 11 of the full buffer and the 8
trailing filler bytes are never visited, so the document's true extent is 12
while the full buffer length is 20. -/
def sizeProbeBody : List Nat :=
  [0x10, 0x61, 0, 1, 0, 0, 0, 0, 42, 42, 42, 42, 42, 42, 42, 42]

/-- Populate ObjectId present in the configured path map. -/
def knownOid : List Nat := [1, 2, 3, 4, 5, 6, 7, 8, 9, 10, 11, 12]

/-- ObjectId appearing in the document but absent from the path map. -/
def missOid : List Nat := [12, 11, 10, 9, 8, 7, 6, 5, 4, 3, 2, 1]

/-- Populate cache mapping path `a` to a single known ObjectId. -/
def onePathPaths : Paths := [(strBytes "a", [(knownOid, strBytes "X")])]

/-- Document with a single ObjectId element `a` holding `missOid`. -/
def oidMissDoc : List Nat := [20, 0, 0, 0, 7, 0x61, 0] ++ missOid ++ [0]

/-- Document with a single datetime element `a` holding the int64
millisecond value v (two's complement little-endian). -/
def dateDoc (v : Int) : List Nat :=
  [16, 0, 0, 0, 9, 0x61, 0] ++ le64Bytes (Int.emod v (2 ^ 64)).toNat ++ [0]

/-- C1: the claim says an `undefined` element is dropped entirely, the output
being `{}` when it is the only field. The code's `BSON_DATA_UNDEFINED` case
(line 1386-1388) is a no-op only for the value: the key and `":` have
already been written, so the output is actually `7b 22 61 22 3a 7d`
(`{"a":}` — invalid JSON), not `7b 7d`. The spec itself flags this as a code
bug (section 9, "undefined elision"). -/
theorem c1_undefined_keeps_key :
    transcodeObject baselineBundle dtoaNone [] undefinedOnlyDoc 30 false []
      (initState []) =
      .ok { inIdx := 8, out := [0x7b, 0x22, 0x61, 0x22, 0x3a, 0x7d],
            currentPath := [0x61], docId := List.replicate 12 0, missing := [] } ∧
    [0x7b, 0x22, 0x61, 0x22, 0x3a, 0x7d] ≠ [0x7b, 0x7d] := by
  exact ⟨by decide, by decide⟩

/-- C2: the claim says no input byte is read outside `[0, in_len)`, in
particular when a field name lacks a null terminator. On a 10-byte input
whose field name runs to the end of the buffer, the baseline null-terminated
escape writer (lines 841-861) scans `in[inIdx++]` with no bound, and the
walk reaches a read at index 10 = `in_len` (the `.oob` outcome, which arises
only from a read at an index not below the buffer length). -/
theorem c2_name_scan_reads_out_of_bounds :
    noTerminatorDoc.length = 10 ∧
    transcodeObject baselineBundle dtoaNone [] noTerminatorDoc 30 false []
      (initState []) =
      .oob { inIdx := 10, out := [0x7b, 0x22, 0x61, 0x61, 0x61, 0x61, 0x61],
             currentPath := [], docId := List.replicate 12 0, missing := [] } := by
  exact ⟨by decide, by decide⟩

/-- C3 counterexample: transcoding a document whose ObjectId misses the
configured path map emits the normal hex representation but leaves
`missingIds` empty — the id is not inserted as the claim states
(`transcodeObject` lines 1228-1245 fall through to the hex writer without
touching `missingIds`). -/
theorem c3_transcode_miss_not_recorded :
    transcodeObject baselineBundle dtoaNone onePathPaths oidMissDoc 30 false []
      (initState []) =
      .ok { inIdx := 20,
            out := [0x7b, 0x22, 0x61, 0x22, 0x3a, 0x22] ++
                   strBytes "0c0b0a090807060504030201" ++ [0x22, 0x7d],
            currentPath := [0x61], docId := List.replicate 12 0, missing := [] } ∧
    ([] : Missing) ≠ insertMissing (strBytes "a") missOid [] := by
  exact ⟨by decide, by decide⟩

/-- Inserting an id into `missingIds[path]` makes it a member of that
path's recorded set. -/
theorem insertMissing_mem (path id : List Nat) (m : Missing) :
    ∃ ids, List.lookup path (insertMissing path id m) = some ids ∧ id ∈ ids := by
  induction m with
  | nil =>
    refine ⟨[id], ?_, by simp⟩
    simp [insertMissing, List.lookup]
  | cons hd tl ih =>
    obtain ⟨p, ids⟩ := hd
    by_cases hp : p = path
    · subst hp
      refine ⟨if id ∈ ids then ids else ids ++ [id], ?_, ?_⟩
      · simp [insertMissing, List.lookup]
      · by_cases hm : id ∈ ids <;> simp [hm]
    · obtain ⟨ids', h1, h2⟩ := ih
      refine ⟨ids', ?_, h2⟩
      have hbe : (path == p) = false := by
        simp only [beq_eq_false_iff_ne, ne_eq]
        exact fun h => hp h.symm
      simp [insertMissing, List.lookup, hp, hbe, h1]

/-- C3 amended: on a populate miss (the current path has an entry whose map
lacks the 12-byte id at the cursor), `transcodeObject` emits the normal
24-hex quoted representation and leaves `missingIds` untouched; the id is
recorded in `missingIds[path]` only by the separate `getMissingIds` walker
(lines 1082-1102). -/
theorem c3_amended_miss_hex_and_missing (paths : Paths) (inp baseKey : List Nat)
    (st : TState) (m : List (List Nat × List Nat))
    (hb : st.inIdx + 12 ≤ inp.length)
    (hp : List.lookup st.currentPath paths = some m)
    (hm : List.lookup ((inp.drop st.inIdx).take 12) m = none) :
    transcodeOidValue baselineBundle paths inp baseKey st =
      .ok { st with
            docId := if baseKey = [] ∧ st.currentPath = strBytes "_id" then
                       (inp.drop st.inIdx).take 12
                     else st.docId,
            inIdx := st.inIdx + 12,
            out := st.out ++ [0x22] ++
                   (((inp.drop st.inIdx).take 12).flatMap fun b =>
                     [hexNib (b >>> 4), hexNib (b &&& 0xf)]) ++ [0x22] } ∧
    getMissingOidValue paths inp st =
      .ok { st with
            missing := insertMissing st.currentPath ((inp.drop st.inIdx).take 12)
                         st.missing,
            inIdx := st.inIdx + 12 } ∧
    ∃ ids, List.lookup st.currentPath
             (insertMissing st.currentPath ((inp.drop st.inIdx).take 12) st.missing) =
             some ids ∧ ((inp.drop st.inIdx).take 12) ∈ ids := by
  refine ⟨?_, ?_, insertMissing_mem _ _ _⟩
  · unfold transcodeOidValue
    rw [if_pos hb]
    by_cases hd : baseKey = [] ∧ st.currentPath = strBytes "_id"
    · obtain ⟨hd1, hd2⟩ := hd
      rw [hd2] at hp
      simp [hd1, hd2, hp, hm, oidBase, baselineBundle]
    · simp [hd, hp, hm, oidBase, baselineBundle]
  · simp [getMissingOidValue, hb, hp, hm]

/-- Witness for the amended C3 theorem at the concrete miss scenario. -/
theorem c3_amended_miss_hex_and_missing_witness :
    (7 : Nat) + 12 ≤ oidMissDoc.length ∧
    transcodeOidValue baselineBundle onePathPaths oidMissDoc []
      { inIdx := 7, out := [], currentPath := strBytes "a",
        docId := List.replicate 12 0, missing := [] } =
      .ok { inIdx := 19,
            out := [0x22] ++ strBytes "0c0b0a090807060504030201" ++ [0x22],
            currentPath := strBytes "a", docId := List.replicate 12 0,
            missing := [] } := by
  have h := c3_amended_miss_hex_and_missing onePathPaths oidMissDoc []
    { inIdx := 7, out := [], currentPath := strBytes "a",
      docId := List.replicate 12 0, missing := [] }
    [(knownOid, strBytes "X")] (by decide) (by decide) (by decide)
  exact ⟨by decide, by rw [h.1]; decide⟩

/-- C4 counterexample: the claim says the date case splits the int64 by
floor-division and modulo, so that 0 ≤ millis < 1000 for negative values too.
The code (lines 1286-1287) uses C++ truncating division: at value -1 it
computes seconds = 0, millis = -1, and emits
`{"a":"1970-01-01T00:00:00.0-1Z"}` — not the
`{"a":"1969-12-31T23:59:59.999Z"}` that floor semantics would give. -/
theorem c4_negative_date_not_floor :
    Int.tmod (-1) 1000 = -1 ∧ ¬ (0 ≤ Int.tmod (-1) 1000) ∧
    Int.fmod (-1) 1000 = 999 ∧
    transcodeObject baselineBundle dtoaNone [] (dateDoc (-1)) 30 false []
      (initState []) =
      .ok { inIdx := 16,
            out := [0x7b, 0x22, 0x61, 0x22, 0x3a, 0x22] ++
                   strBytes "1970-01-01T00:00:00.0-1Z" ++ [0x22, 0x7d],
            currentPath := [0x61], docId := List.replicate 12 0, missing := [] } ∧
    [0x7b, 0x22, 0x61, 0x22, 0x3a, 0x22] ++
      strBytes "1970-01-01T00:00:00.0-1Z" ++ [0x22, 0x7d] ≠
    [0x7b, 0x22, 0x61, 0x22, 0x3a, 0x22] ++
      strBytes "1969-12-31T23:59:59.999Z" ++ [0x22, 0x7d] := by
  exact ⟨by decide, by decide, by decide, by decide, by decide⟩

/-- C4 amended: the date case splits the int64 with C-style truncating
division and remainder; for non-negative values this agrees with
floor-division/modulo and yields 0 ≤ millis < 1000, and the formatted output
at 1600000000123 ms is exactly `"2020-09-13T12:26:40.123Z"`. -/
theorem c4_amended_trunc_split (v : Int) (hv : 0 ≤ v) :
    Int.tdiv v 1000 = Int.fdiv v 1000 ∧
    Int.tmod v 1000 = Int.fmod v 1000 ∧
    0 ≤ Int.tmod v 1000 ∧ Int.tmod v 1000 < 1000 ∧
    transcodeObject baselineBundle dtoaNone [] (dateDoc 1600000000123) 30 false []
      (initState []) =
      .ok { inIdx := 16,
            out := [0x7b, 0x22, 0x61, 0x22, 0x3a, 0x22] ++
                   strBytes "2020-09-13T12:26:40.123Z" ++ [0x22, 0x7d],
            currentPath := [0x61], docId := List.replicate 12 0, missing := [] } := by
  have h1000 : (0 : Int) ≤ 1000 := by decide
  have hd : Int.tdiv v 1000 = Int.fdiv v 1000 :=
    (Int.fdiv_eq_tdiv hv h1000).symm
  have hm : Int.tmod v 1000 = Int.fmod v 1000 :=
    (Int.fmod_eq_tmod hv h1000).symm
  have he : Int.tmod v 1000 = v % 1000 := Int.tmod_eq_emod hv h1000
  refine ⟨hd, hm, ?_, ?_, by decide⟩
  · rw [he]; exact Int.emod_nonneg v (by decide)
  · rw [he]; exact Int.emod_lt_of_pos v (by decide)

/-- Witness for the amended C4 theorem at v = 1600000000123. -/
theorem c4_amended_trunc_split_witness :
    (0 : Int) ≤ 1600000000123 ∧
    0 ≤ Int.tmod (1600000000123 : Int) 1000 ∧
    Int.tmod (1600000000123 : Int) 1000 < 1000 := by
  have h := c4_amended_trunc_split 1600000000123 (by decide)
  exact ⟨by decide, h.2.2.1, h.2.2.2.1⟩

/-- C5 counterexample: the claim says that when n fits below ceil(1.5 ×
current) the sink grows to exactly ceil(1.5 × current), and that after
growth the n bytes fit. With current capacity 4, outIdx 0 and n = 5 the code
grows to (max 5 4 * 3) >> 1 = 7, not ceil(1.5 × 4) = 6 although 5 ≤ 6; and
with capacity 10, outIdx 9, n = 10 it grows to 15 while outIdx + n = 19, so
the write does not fit. -/
theorem c5_growth_policy_counterexample :
    ensureSpaceNewLen 0 5 4 = 7 ∧ (7 : Nat) ≠ (3 * 4 + 1) / 2 ∧ (5 : Nat) ≤ (3 * 4 + 1) / 2 ∧
    ensureSpaceNewLen 9 10 10 = 15 ∧ ¬ 9 + 10 < ensureSpaceNewLen 9 10 10 := by
  exact ⟨by decide, by decide, by decide, by decide, by decide⟩

/-- C5 amended: whenever a write of n bytes does not fit
(`outIdx + n < outLen` fails), the sink grows the capacity to
floor(1.5 × max(current, n)); the n bytes are then guaranteed to fit when
`outIdx < outLen` and `2n ≤ outLen`, but not in general. -/
theorem c5_amended_growth (outIdx n outLen : Nat) (h : ¬ outIdx + n < outLen) :
    ensureSpaceNewLen outIdx n outLen = max n outLen * 3 / 2 ∧
    (outIdx < outLen → 2 * n ≤ outLen →
      outIdx + n < ensureSpaceNewLen outIdx n outLen) := by
  have he : ensureSpaceNewLen outIdx n outLen = max n outLen * 3 / 2 := by
    unfold ensureSpaceNewLen
    rw [if_neg h]
    simp [Nat.shiftRight_eq_div_pow]
  refine ⟨he, fun h1 h2 => ?_⟩
  rw [he]
  rcases Nat.le_total n outLen with hle | hle
  · rw [Nat.max_eq_right hle]; omega
  · rw [Nat.max_eq_left hle]; omega

/-- Witness for the amended C5 theorem at outIdx 3, n 2, outLen 4. -/
theorem c5_amended_growth_witness :
    ¬ (3 : Nat) + 2 < 4 ∧ ensureSpaceNewLen 3 2 4 = max 2 4 * 3 / 2 ∧ 3 + 2 < ensureSpaceNewLen 3 2 4 := by
  have h := c5_amended_growth 3 2 4 (by decide)
  exact ⟨by decide, h.1, h.2 (by decide) (by decide)⟩

/-- C6 counterexample: the claim says every processed byte c < 0x20 is
emitted as the 6-byte `\u00XX` sequence. Byte 0x08 is emitted as the 2-byte
short escape `\b` instead (`getEscape` line 77). -/
theorem c6_control_byte_short_escape :
    wecNBase [0x08] 1 0 [] = .ok 1 [92, 98] ∧
    ([92, 98] : List Nat).length ≠ 6 := by
  exact ⟨by decide, by decide⟩

/-- C6 amended: bytes c < 0x20 outside {0x08, 0x09, 0x0a, 0x0c, 0x0d} are
emitted as the 6-byte `\u00` + high-nibble ('1' iff bit 0x10 is set, else
'0') + lowercase-hex low nibble; 0x08, 0x09, 0x0a, 0x0c, 0x0d become the
2-byte short escapes `\b`, `\t`, `\n`, `\f`, `\r`; 0x22 and 0x5c become
`\"` and `\\`; every other byte at least 0x20 passes through unchanged. -/
theorem c6_amended_escape_table (c : Nat) :
    (c < 0x20 → getEscape c = 0 →
      wecNBase [c] 1 0 [] =
        .ok 1 [92, 117, 48, 48, if c &&& 0x10 ≠ 0 then 49 else 48,
               hexNib (c &&& 0xf)]) ∧
    (c = 0x08 → wecNBase [c] 1 0 [] = .ok 1 [92, 98]) ∧
    (c = 0x09 → wecNBase [c] 1 0 [] = .ok 1 [92, 116]) ∧
    (c = 0x0a → wecNBase [c] 1 0 [] = .ok 1 [92, 110]) ∧
    (c = 0x0c → wecNBase [c] 1 0 [] = .ok 1 [92, 102]) ∧
    (c = 0x0d → wecNBase [c] 1 0 [] = .ok 1 [92, 114]) ∧
    (c = 0x22 → wecNBase [c] 1 0 [] = .ok 1 [92, 0x22]) ∧
    (c = 0x5c → wecNBase [c] 1 0 [] = .ok 1 [92, 0x5c]) ∧
    (0x20 ≤ c → c ≠ 0x22 → c ≠ 0x5c → wecNBase [c] 1 0 [] = .ok 1 [c]) := by
  refine ⟨?_, ?_, ?_, ?_, ?_, ?_, ?_, ?_, ?_⟩
  · intro h1 h2
    interval_cases c <;> first
      | exact absurd h2 (by decide)
      | decide
  · rintro rfl; decide
  · rintro rfl; decide
  · rintro rfl; decide
  · rintro rfl; decide
  · rintro rfl; decide
  · rintro rfl; decide
  · rintro rfl; decide
  · intro h1 h2 h3
    unfold wecNBase
    simp only [List.get?]
    rw [if_pos ⟨h1, h2, h3⟩]
    rfl

/-- Witness for the amended C6 escape table at bytes 1, 8, 0x22, 0x5c, 65. -/
theorem c6_amended_escape_table_witness :
    wecNBase [1] 1 0 [] = .ok 1 [92, 117, 48, 48, 48, 49] ∧
    wecNBase [8] 1 0 [] = .ok 1 [92, 98] ∧
    wecNBase [0x22] 1 0 [] = .ok 1 [92, 0x22] ∧
    wecNBase [0x5c] 1 0 [] = .ok 1 [92, 0x5c] ∧
    wecNBase [65] 1 0 [] = .ok 1 [65] := by
  refine ⟨?_, (c6_amended_escape_table 8).2.1 rfl,
          (c6_amended_escape_table 0x22).2.2.2.2.2.2.1 rfl,
          (c6_amended_escape_table 0x5c).2.2.2.2.2.2.2.1 rfl,
          (c6_amended_escape_table 65).2.2.2.2.2.2.2.2 (by decide) (by decide) (by decide)⟩
  have h := (c6_amended_escape_table 1).1 (by decide) (by decide)
  simpa using h

/-- C9 counterexample: the claim says a walk call fails with
`BsonSizeTooSmall` exactly when its own size field is below 5. On a document
whose own size is 12 (passing both head checks) containing a nested document
whose size field is 4, the nested failure propagates verbatim, so the outer
call fails with the `BsonSizeTooSmall` message although its size is 12 ≥ 5. -/
theorem c9_nested_error_propagates :
    readLE32 nestedBadSizeDoc 0 = some 12 ∧ ¬ (12 : Int) < 5 ∧
    (12 : Int).toNat + 4 - 4 ≤ nestedBadSizeDoc.length ∧
    transcodeObject baselineBundle dtoaNone [] nestedBadSizeDoc 30 false []
      (initState []) =
      .err "BSON size must be >= 5"
        { inIdx := 11, out := [0x7b, 0x22, 0x61, 0x22, 0x3a],
          currentPath := [0x61], docId := List.replicate 12 0, missing := [] } := by
  exact ⟨by decide, by decide, by decide, by decide⟩

/-- C9 amended: after reading the little-endian int32 size field, each walk
call fails immediately (with no output emitted for this document) with
`BsonSizeTooSmall` when size < 5, and otherwise with `BsonSizeExceedsInput`
when size - 4 + cursor > in_len, the cursor being the position just after
the size field; only when both checks pass is any output emitted for this
document. A nested document's check failure propagates to the enclosing
calls verbatim, so an outer call can also report these errors. -/
theorem c9_amended_size_checks (B : IsaBundle) (dtoa : List Nat → List Nat)
    (paths : Paths) (inp : List Nat) (fuel : Nat) (isArray : Bool)
    (baseKey : List Nat) (st : TState) (size : Int)
    (hr : readLE32 inp st.inIdx = some size) :
    (size < 5 →
      transcodeObject B dtoa paths inp (fuel + 1) isArray baseKey st =
        .err "BSON size must be >= 5" { st with inIdx := st.inIdx + 4 }) ∧
    (¬ size < 5 → size.toNat + (st.inIdx + 4) - 4 > inp.length →
      transcodeObject B dtoa paths inp (fuel + 1) isArray baseKey st =
        .err "BSON size exceeds input length" { st with inIdx := st.inIdx + 4 }) := by
  constructor
  · intro h
    unfold transcodeObject
    rw [hr]
    simp only []
    rw [if_pos h]
  · intro h1 h2
    unfold transcodeObject
    rw [hr]
    simp only []
    rw [if_neg h1, if_pos h2]

/-- Witness for the amended C9 size checks: a size field of 3 fails with the
too-small message and no output, a size field of 60 on a 12-byte buffer
fails with the exceeds-input message and no output. -/
theorem c9_amended_size_checks_witness :
    readLE32 [3, 0, 0, 0, 0] 0 = some 3 ∧
    transcodeObject baselineBundle dtoaNone [] [3, 0, 0, 0, 0] 30 false []
      (initState []) =
      .err "BSON size must be >= 5"
        { inIdx := 4, out := [], currentPath := [], docId := List.replicate 12 0,
          missing := [] } ∧
    readLE32 [60, 0, 0, 0, 0, 0, 0, 0, 0, 0, 0, 0] 0 = some 60 ∧
    transcodeObject baselineBundle dtoaNone [] [60, 0, 0, 0, 0, 0, 0, 0, 0, 0, 0, 0]
      30 false [] (initState []) =
      .err "BSON size exceeds input length"
        { inIdx := 4, out := [], currentPath := [], docId := List.replicate 12 0,
          missing := [] } := by
  refine ⟨by decide, ?_, by decide, ?_⟩
  · exact (c9_amended_size_checks baselineBundle dtoaNone [] [3, 0, 0, 0, 0] 29
      false [] (initState []) 3 (by decide)).1 (by decide)
  · exact (c9_amended_size_checks baselineBundle dtoaNone []
      [60, 0, 0, 0, 0, 0, 0, 0, 0, 0, 0, 0] 29 false [] (initState []) 60
      (by decide)).2 (by decide) (by decide)

/-- C10: once the two head checks pass, the element loop never compares the
bytes consumed against the declared size — it stops only on a 0 type byte.
Over the fixed 16-byte body `sizeProbeBody` (one int32 element `a = 1`,
terminator at offset 11, true document extent 12, buffer length 20), every
size field decoding to a value s with 5 ≤ s and s ≤ 20 — including every s
different from the true extent 12 — transcodes successfully to `{"a":1}`
with no error for the mismatch, the filler bytes unread. -/
theorem c10_size_field_not_rechecked (b0 b1 b2 b3 : Nat) (s : Int)
    (hr : readLE32 (b0 :: b1 :: b2 :: b3 :: sizeProbeBody) 0 = some s)
    (h5 : ¬ s < 5) (hb : ¬ s.toNat + 4 - 4 > 20) :
    transcodeObject baselineBundle dtoaNone []
      (b0 :: b1 :: b2 :: b3 :: sizeProbeBody) 30 false [] (initState []) =
      .ok { inIdx := 12, out := [0x7b, 0x22, 0x61, 0x22, 0x3a, 49, 0x7d],
            currentPath := [0x61], docId := List.replicate 12 0, missing := [] } := by
  unfold transcodeObject
  have h0 : (initState ([] : Missing)).inIdx = 0 := rfl
  rw [h0, hr]
  simp only []
  rw [if_neg h5, if_neg (by simpa [sizeProbeBody] using hb)]
  rfl

/-- Witness for C10 at the size field 20 ≠ 12 (the true extent). -/
theorem c10_size_field_not_rechecked_witness :
    readLE32 (20 :: 0 :: 0 :: 0 :: sizeProbeBody) 0 = some 20 ∧ (20 : Int) ≠ 12 ∧
    transcodeObject baselineBundle dtoaNone []
      (20 :: 0 :: 0 :: 0 :: sizeProbeBody) 30 false [] (initState []) =
      .ok { inIdx := 12, out := [0x7b, 0x22, 0x61, 0x22, 0x3a, 49, 0x7d],
            currentPath := [0x61], docId := List.replicate 12 0, missing := [] } := by
  exact ⟨by decide, by decide,
    c10_size_field_not_rechecked 20 0 0 0 20 (by decide) (by decide) (by decide)⟩

/-- Per-byte encoding performed by the escape writers: pass-through,
single-character escape, or `\u00XX`. -/
def escapeByte (c : Nat) : List Nat :=
  if c ≥ 0x20 ∧ c ≠ 0x22 ∧ c ≠ 0x5c then [c]
  else if getEscape c ≠ 0 then [92, getEscape c]
  else writeControlChar c

/-- Running the baseline bounded escape writer over a segment of the buffer
appends exactly the concatenation of the per-byte encodings and advances the
cursor past the segment. -/
theorem wecNBase_append (s pre post out : List Nat) :
    wecNBase (pre ++ s ++ post) s.length pre.length out =
      .ok (pre.length + s.length) (out ++ s.flatMap escapeByte) := by
  induction s generalizing pre out with
  | nil => simp [wecNBase]
  | cons c t ih =>
    have hg : (pre ++ (c :: t) ++ post).get? pre.length = some c := by
      rw [List.append_assoc, List.get?_append_right (le_refl _)]
      simp
    have hre : pre ++ (c :: t) ++ post = (pre ++ [c]) ++ t ++ post := by simp
    have ihx := ih (pre ++ [c]) (out ++ escapeByte c)
    rw [← hre] at ihx
    simp only [List.length_append, List.length_cons, List.length_nil,
               Nat.add_zero, Nat.zero_add] at ihx
    show wecNBase (pre ++ (c :: t) ++ post) (t.length + 1) pre.length out = _
    unfold wecNBase
    rw [hg]
    dsimp only
    by_cases h1 : c ≥ 0x20 ∧ c ≠ 0x22 ∧ c ≠ 0x5c
    · rw [if_pos h1]
      have hec : escapeByte c = [c] := by simp [escapeByte, h1]
      rw [← hec, ihx]
      simp [List.flatMap_cons, List.append_assoc]
      omega
    · rw [if_neg h1]
      by_cases h2 : getEscape c ≠ 0
      · rw [if_pos h2]
        have hec : escapeByte c = [92, getEscape c] := by simp [escapeByte, h1, h2]
        rw [← hec, ihx]
        simp [List.flatMap_cons, List.append_assoc]
        omega
      · rw [if_neg h2]
        have hec : escapeByte c = writeControlChar c := by simp [escapeByte, h1, h2]
        rw [← hec, ihx]
        simp [List.flatMap_cons, List.append_assoc]
        omega

/-- Modelled from the spec: hex-digit value used by the ECMA-262 section
24.5.2.2 `\uXXXX` unescaping rule of `JSON.parse` (an external consumer of
the transcoder's output). -/
def hexVal (c : Nat) : Option Nat :=
  if 48 ≤ c ∧ c ≤ 57 then some (c - 48)
  else if 97 ≤ c ∧ c ≤ 102 then some (c - 87)
  else if 65 ≤ c ∧ c ≤ 70 then some (c - 55)
  else none

/-- Modelled from the spec: ECMA-262 section 24.5.2.2 JSON string-body
unescaping as performed by `JSON.parse` (out of scope for the source).
Consumes bytes up to an unescaped closing quote, decoding `\b \t \n \f \r
\" \\ \/` and `\uXXXX`; returns the decoded bytes and the remainder after
the quote. Each production consumes at least one byte, so the fuel supplied
by the wrapper below is sufficient. `parseEscHead` decodes the single
escape sequence following a backslash. -/
def parseEscHead : List Nat → Option (Nat × List Nat)
  | 98 :: r => some (8, r)
  | 116 :: r => some (9, r)
  | 110 :: r => some (10, r)
  | 102 :: r => some (12, r)
  | 114 :: r => some (13, r)
  | 34 :: r => some (34, r)
  | 92 :: r => some (92, r)
  | 47 :: r => some (47, r)
  | 117 :: h1 :: h2 :: h3 :: h4 :: r =>
    match hexVal h1, hexVal h2, hexVal h3, hexVal h4 with
    | some v1, some v2, some v3, some v4 =>
      some (((v1 * 16 + v2) * 16 + v3) * 16 + v4, r)
    | _, _, _, _ => none
  | _ => none

/-- Body of the unescaping scan (see `parseStrAux`). -/
def parseStrAuxF : Nat → List Nat → Option (List Nat × List Nat)
  | 0, _ => none
  | _ + 1, [] => none
  | fuel + 1, c :: rest =>
    if c = 0x22 then some ([], rest)
    else if c = 92 then
      match parseEscHead rest with
      | some (b, r) => (parseStrAuxF fuel r).map fun p => (b :: p.1, p.2)
      | none => none
    else (parseStrAuxF fuel rest).map fun p => (c :: p.1, p.2)

/-- JSON string-body unescaping (see `parseStrAuxF`). -/
def parseStrAux (l : List Nat) : Option (List Nat × List Nat) :=
  parseStrAuxF l.length l

/-- Modelled from the spec: `JSON.parse` of a one-field object whose value is
a string, returning the field name bytes and the unescaped value bytes. -/
def jsonParseSingle (l : List Nat) : Option (List Nat × List Nat) :=
  match l with
  | 0x7b :: 0x22 :: r =>
    match parseStrAux r with
    | some (name, 0x3a :: 0x22 :: r2) =>
      match parseStrAux r2 with
      | some (v, r3) => if r3 = [0x7d] then some (name, v) else none
      | none => none
    | _ => none
  | _ => none

/-- Case list for bytes with a single-character escape. -/
theorem getEscape_cases (c : Nat) (h : getEscape c ≠ 0) :
    c = 8 ∨ c = 9 ∨ c = 10 ∨ c = 12 ∨ c = 13 ∨ c = 34 ∨ c = 92 := by
  unfold getEscape at h
  split_ifs at h <;> simp_all

/-- Production of the unescaping scan at a plain byte. -/
theorem parseStrAuxF_plain (f c : Nat) (l : List Nat)
    (h1 : c ≠ 0x22) (h2 : c ≠ 92) :
    parseStrAuxF (f + 1) (c :: l) =
      (parseStrAuxF f l).map fun p => (c :: p.1, p.2) := by
  show (if c = 0x22 then some ([], l)
        else if c = 92 then
          match parseEscHead l with
          | some (b, r) => (parseStrAuxF f r).map fun p => (b :: p.1, p.2)
          | none => none
        else (parseStrAuxF f l).map fun p => (c :: p.1, p.2)) = _
  rw [if_neg h1, if_neg h2]

/-- Production of the unescaping scan at a backslash whose escape sequence
decodes to b. -/
theorem parseStrAuxF_escSeq (f b : Nat) (l tl : List Nat)
    (hb : parseEscHead l = some (b, tl)) :
    parseStrAuxF (f + 1) (92 :: l) =
      (parseStrAuxF f tl).map fun p => (b :: p.1, p.2) := by
  show (if (92 : Nat) = 0x22 then some ([], l)
        else if (92 : Nat) = 92 then
          match parseEscHead l with
          | some (b, r) => (parseStrAuxF f r).map fun p => (b :: p.1, p.2)
          | none => none
        else (parseStrAuxF f l).map fun p => (92 :: p.1, p.2)) = _
  rw [if_neg (by decide), if_pos rfl, hb]

/-- Decoding the `\u00XX` sequence produced by `writeControlChar` recovers
the control byte. -/
theorem parseEscHead_ctrl (c : Nat) (hc : c < 32) (tl : List Nat) :
    parseEscHead (117 :: 48 :: 48 :: (if c &&& 0xf0 ≠ 0 then 49 else 48) ::
                  hexNib (c &&& 0xf) :: tl) = some (c, tl) := by
  interval_cases c <;> rfl

/-- Unescaping inverts the escape writer's per-byte encoding: parsing the
encoded bytes followed by a closing quote returns the original bytes
(stated over the fueled parser body with sufficient fuel). -/
theorem parseStrAuxF_escape (s : List Nat) : ∀ (rest : List Nat) (fuel : Nat),
    (s.flatMap escapeByte ++ 0x22 :: rest).length ≤ fuel →
    parseStrAuxF fuel (s.flatMap escapeByte ++ 0x22 :: rest) = some (s, rest) := by
  induction s with
  | nil =>
    intro rest fuel hf
    cases fuel with
    | zero => simp at hf
    | succ f =>
      simp only [List.flatMap_nil, List.nil_append]
      rfl
  | cons c t ih =>
    intro rest fuel hf
    have hpos : 1 ≤ (escapeByte c).length := by
      unfold escapeByte writeControlChar
      split_ifs <;> simp
    cases fuel with
    | zero =>
      exfalso
      rw [List.flatMap_cons] at hf
      simp [List.length_append] at hf
    | succ f =>
      rw [List.flatMap_cons, List.append_assoc]
      have hf' : (t.flatMap escapeByte ++ 0x22 :: rest).length ≤ f := by
        rw [List.flatMap_cons, List.append_assoc] at hf
        simp only [List.length_append, List.length_cons] at hf ⊢
        omega
      have ihx := ih rest f hf'
      by_cases h1 : c ≥ 0x20 ∧ c ≠ 0x22 ∧ c ≠ 0x5c
      · have hec : escapeByte c = [c] := by simp [escapeByte, h1]
        rw [hec]
        simp only [List.cons_append, List.nil_append]
        rw [parseStrAuxF_plain f c _ h1.2.1 h1.2.2, ihx]
        rfl
      · by_cases h2 : getEscape c ≠ 0
        · have hec : escapeByte c = [92, getEscape c] := by
            simp [escapeByte, h1, h2]
          rw [hec]
          simp only [List.cons_append, List.nil_append]
          rcases getEscape_cases c h2 with rfl | rfl | rfl | rfl | rfl | rfl | rfl
          · rw [parseStrAuxF_escSeq f 8
              (getEscape 8 :: (t.flatMap escapeByte ++ 0x22 :: rest))
              (t.flatMap escapeByte ++ 0x22 :: rest) rfl, ihx]
            rfl
          · rw [parseStrAuxF_escSeq f 9
              (getEscape 9 :: (t.flatMap escapeByte ++ 0x22 :: rest))
              (t.flatMap escapeByte ++ 0x22 :: rest) rfl, ihx]
            rfl
          · rw [parseStrAuxF_escSeq f 10
              (getEscape 10 :: (t.flatMap escapeByte ++ 0x22 :: rest))
              (t.flatMap escapeByte ++ 0x22 :: rest) rfl, ihx]
            rfl
          · rw [parseStrAuxF_escSeq f 12
              (getEscape 12 :: (t.flatMap escapeByte ++ 0x22 :: rest))
              (t.flatMap escapeByte ++ 0x22 :: rest) rfl, ihx]
            rfl
          · rw [parseStrAuxF_escSeq f 13
              (getEscape 13 :: (t.flatMap escapeByte ++ 0x22 :: rest))
              (t.flatMap escapeByte ++ 0x22 :: rest) rfl, ihx]
            rfl
          · rw [parseStrAuxF_escSeq f 34
              (getEscape 34 :: (t.flatMap escapeByte ++ 0x22 :: rest))
              (t.flatMap escapeByte ++ 0x22 :: rest) rfl, ihx]
            rfl
          · rw [parseStrAuxF_escSeq f 92
              (getEscape 92 :: (t.flatMap escapeByte ++ 0x22 :: rest))
              (t.flatMap escapeByte ++ 0x22 :: rest) rfl, ihx]
            rfl
        · have hc32 : c < 32 := by
            rcases Nat.lt_or_ge c 32 with h | h
            · exact h
            · exfalso
              have hor : c = 0x22 ∨ c = 0x5c := by
                by_contra hno
                push_neg at hno
                exact h1 ⟨h, hno.1, hno.2⟩
              rcases hor with rfl | rfl <;> simp [getEscape] at h2
          have hec : escapeByte c = writeControlChar c := by
            simp [escapeByte, h1, h2]
          rw [hec]
          simp only [writeControlChar, List.cons_append, List.nil_append]
          rw [parseStrAuxF_escSeq f c _ _ (parseEscHead_ctrl c hc32 _), ihx]
          rfl

/-- Unescaping inverts the escape writer's per-byte encoding. -/
theorem parseStrAux_escape (s rest : List Nat) :
    parseStrAux (s.flatMap escapeByte ++ 0x22 :: rest) = some (s, rest) :=
  parseStrAuxF_escape s rest _ (le_refl _)


/-- One-field BSON document with string value s under key `a`:
size, `0x02 'a' 00`, string length s.length + 1, the bytes of s, the string's
null terminator, and the document terminator. -/
def bsonStrDoc (s : List Nat) : List Nat :=
  le32Bytes (13 + s.length) ++ [2, 0x61, 0] ++ le32Bytes (s.length + 1) ++ s ++ [0, 0]

theorem get?_append_off (pre X : List Nat) (k : Nat) :
    (pre ++ X).get? (pre.length + k) = X.get? k := by
  rw [List.get?_append_right (Nat.le_add_right _ _)]
  simp

theorem readLE32_at (pre rest : List Nat) (v : Nat) (hv : v < 2 ^ 31) :
    readLE32 (pre ++ (le32Bytes v ++ rest)) pre.length = some (v : Int) := by
  unfold readLE32
  have e0 : (pre ++ (le32Bytes v ++ rest)).get? pre.length = some (v % 256) := by
    have h := get?_append_off pre (le32Bytes v ++ rest) 0
    simpa [le32Bytes] using h
  have e1 : (pre ++ (le32Bytes v ++ rest)).get? (pre.length + 1) = some (v / 256 % 256) := by
    simpa [le32Bytes] using get?_append_off pre (le32Bytes v ++ rest) 1
  have e2 : (pre ++ (le32Bytes v ++ rest)).get? (pre.length + 2) = some (v / 65536 % 256) := by
    simpa [le32Bytes] using get?_append_off pre (le32Bytes v ++ rest) 2
  have e3 : (pre ++ (le32Bytes v ++ rest)).get? (pre.length + 3) = some (v / 16777216 % 256) := by
    simpa [le32Bytes] using get?_append_off pre (le32Bytes v ++ rest) 3
  rw [e0, e1, e2, e3]
  dsimp only
  have hval : v % 256 + 256 * (v / 256 % 256 + 256 * (v / 65536 % 256 + 256 * (v / 16777216 % 256))) = v := by
    omega
  rw [hval, if_pos hv]

set_option maxHeartbeats 1000000 in
theorem transcode_bsonStrDoc (s : List Nat) (hs : s.length + 14 < 2 ^ 31) :
    transcodeObject baselineBundle dtoaNone [] (bsonStrDoc s) 10 false []
      (initState []) =
      .ok { inIdx := 13 + s.length,
            out := [0x7b, 0x22, 0x61, 0x22, 0x3a, 0x22] ++ s.flatMap escapeByte ++ [0x22, 0x7d],
            currentPath := [0x61], docId := List.replicate 12 0, missing := [] } := by
  have hlen : (bsonStrDoc s).length = 13 + s.length := by
    simp [bsonStrDoc, le32Bytes]
    omega
  have h0 : readLE32 (bsonStrDoc s) 0 = some ((13 + s.length : Nat) : Int) := by
    have h := readLE32_at [] ([2, 0x61, 0] ++ le32Bytes (s.length + 1) ++ s ++ [0, 0])
      (13 + s.length) (by omega)
    simpa [bsonStrDoc, List.append_assoc] using h
  unfold transcodeObject
  rw [show (initState ([] : Missing)).inIdx = 0 from rfl, h0]
  dsimp only
  rw [if_neg (by omega), if_neg (by rw [hlen]; omega)]
  unfold transcodeLoop
  rw [show (bsonStrDoc s).get? (0 + 4) = some 2 from rfl]
  have hname : ∀ o : List Nat, wecNTBase (bsonStrDoc s) 5 o = .ok 6 (o ++ [97]) := by
    intro o
    unfold wecNTBase
    rw [show (bsonStrDoc s).length + 1 - 5 = s.length + 9 by rw [hlen]; omega]
    rfl
  simp only [initState, baselineBundle]
  norm_num
  rw [hname]
  have h7 : readLE32 (bsonStrDoc s) 7 = some ((s.length + 1 : Nat) : Int) := by
    have h := readLE32_at (le32Bytes (13 + s.length) ++ [2, 0x61, 0]) (s ++ [0, 0])
      (s.length + 1) (by omega)
    have hl7 : (le32Bytes (13 + s.length) ++ [2, 0x61, 0]).length = 7 := by
      simp [le32Bytes]
    have hsh : (le32Bytes (13 + s.length) ++ [2, 0x61, 0]) ++
          (le32Bytes (s.length + 1) ++ (s ++ [0, 0])) = bsonStrDoc s := by
      simp [bsonStrDoc, List.append_assoc]
    rw [hl7, hsh] at h
    exact h
  have hwec : ∀ o : List Nat, wecNBase (bsonStrDoc s) s.length 11 o =
      .ok (11 + s.length) (o ++ s.flatMap escapeByte) := by
    intro o
    have h := wecNBase_append s
      (le32Bytes (13 + s.length) ++ [2, 0x61, 0] ++ le32Bytes (s.length + 1)) [0, 0] o
    have hl11 : (le32Bytes (13 + s.length) ++ [2, 0x61, 0] ++ le32Bytes (s.length + 1)).length = 11 := by
      simp [le32Bytes]
    have hsh : le32Bytes (13 + s.length) ++ [2, 0x61, 0] ++ le32Bytes (s.length + 1) ++ s ++ [0, 0] =
        bsonStrDoc s := by
      simp [bsonStrDoc, List.append_assoc]
    rw [hl11, hsh] at h
    exact h
  unfold transcodeElem
  rw [h7]
  simp only [BSON_DATA_STRING, BSON_DATA_OID, BSON_DATA_INT, BSON_DATA_NUMBER,
    BSON_DATA_DATE, BSON_DATA_BOOLEAN, BSON_DATA_OBJECT, BSON_DATA_ARRAY,
    BSON_DATA_NULL, BSON_DATA_LONG, BSON_DATA_UNDEFINED]
  norm_num
  rw [hlen]
  rw [if_neg (by omega)]
  rw [hwec]
  simp only []
  have h12 : (bsonStrDoc s).get? (11 + s.length + 1) = some 0 := by
    have h := get?_append_off
      (le32Bytes (13 + s.length) ++ [2, 0x61, 0] ++ le32Bytes (s.length + 1))
      (s ++ [0, 0]) (s.length + 1)
    have hl11 : (le32Bytes (13 + s.length) ++ [2, 0x61, 0] ++ le32Bytes (s.length + 1)).length = 11 := by
      simp [le32Bytes]
    have hsh : (le32Bytes (13 + s.length) ++ [2, 0x61, 0] ++ le32Bytes (s.length + 1)) ++ (s ++ [0, 0]) =
        bsonStrDoc s := by
      simp [bsonStrDoc, List.append_assoc]
    rw [hl11, hsh] at h
    rw [show 11 + s.length + 1 = 11 + (s.length + 1) from by omega, h]
    rw [List.get?_append_right (by omega)]
    simp
  unfold transcodeLoop
  rw [h12]
  simp only []
  norm_num
  exact ⟨by omega, rfl⟩


theorem jsonParseSingle_escape (s : List Nat) :
    jsonParseSingle ([0x7b, 0x22, 0x61, 0x22, 0x3a, 0x22] ++
      s.flatMap escapeByte ++ [0x22, 0x7d]) = some ([0x61], s) := by
  have h1 := parseStrAux_escape [0x61]
    (0x3a :: 0x22 :: (s.flatMap escapeByte ++ [0x22, 0x7d]))
  have he97 : ([0x61] : List Nat).flatMap escapeByte = [0x61] := rfl
  rw [he97] at h1
  have h2 := parseStrAux_escape s [0x7d]
  simp only [List.cons_append, List.nil_append] at h1 h2 ⊢
  have hJ : ∀ r : List Nat, jsonParseSingle (0x7b :: 0x22 :: r) =
      match parseStrAux r with
      | some (name, 0x3a :: 0x22 :: r2) =>
        match parseStrAux r2 with
        | some (v, r3) => if r3 = [0x7d] then some (name, v) else none
        | none => none
      | _ => none := fun r => rfl
  rw [hJ, h1]
  simp only [h2]
  rfl

/-- C8: transcoding a document holding an arbitrary byte string s as its
single string value produces parseable JSON whose value position, unescaped
per ECMA-262 section 24.5.2.2, yields s again byte-for-byte (the length
bound only keeps the document size representable in the int32 size field). -/
theorem c8_string_round_trip (s : List Nat) (hs : s.length + 14 < 2 ^ 31) :
    transcodeObject baselineBundle dtoaNone [] (bsonStrDoc s) 10 false []
      (initState []) =
      .ok { inIdx := 13 + s.length,
            out := [0x7b, 0x22, 0x61, 0x22, 0x3a, 0x22] ++
                   s.flatMap escapeByte ++ [0x22, 0x7d],
            currentPath := [0x61], docId := List.replicate 12 0, missing := [] } ∧
    jsonParseSingle ([0x7b, 0x22, 0x61, 0x22, 0x3a, 0x22] ++
      s.flatMap escapeByte ++ [0x22, 0x7d]) = some ([0x61], s) :=
  ⟨transcode_bsonStrDoc s hs, jsonParseSingle_escape s⟩

/-- Witness for the C8 round trip at s = [0x08, 0x61, 0xc3, 0xa9] (a control
byte, an ASCII byte, and a two-byte UTF-8 sequence). -/
theorem c8_string_round_trip_witness :
    ([0x08, 0x61, 0xc3, 0xa9] : List Nat).length + 14 < 2 ^ 31 ∧
    jsonParseSingle ([0x7b, 0x22, 0x61, 0x22, 0x3a, 0x22] ++
      ([0x08, 0x61, 0xc3, 0xa9] : List Nat).flatMap escapeByte ++ [0x22, 0x7d]) =
      some ([0x61], [0x08, 0x61, 0xc3, 0xa9]) :=
  ⟨by decide, (c8_string_round_trip [0x08, 0x61, 0xc3, 0xa9] (by decide)).2⟩

/-- Loop of the vectorized length-bounded escape writers
(`writeEscapedChars(size_t, Enabler<ISA::SSE2|SSE42|AVX2|AVX512F>)`, lines
657-838), at byte-level semantics for lane width `wm1 + 1` (16, 32 or 64):
load a window of `clampedN = min(n, width)` bytes, find the first byte
needing escape (`movemask`/`cmpestri` + `tzcnt`, clamped to `clampedN`),
copy the clean prefix verbatim, then emit one escape and repeat. Fuel is a
model artifact; the wrapper supplies `n`, which suffices since every
iteration consumes at least one of the `n` bytes. -/
def wecNBlockAux (wm1 : Nat) (inp : List Nat) : Nat → Nat → Nat → List Nat → WOut
  | _, 0, i, out => .ok i out
  | 0, _ + 1, i, out => .oob i out
  | fuel + 1, n + 1, i, out =>
    let w := wm1 + 1
    let clampedN := min (n + 1) w
    let win := (inp.drop i).take clampedN
    let k := win.findIdx needsEscape
    if k < clampedN then
      match inp.get? (i + k) with
      | none => .oob (i + k) out
      | some c =>
        let out := out ++ win.take k
        if getEscape c ≠ 0 then
          wecNBlockAux wm1 inp fuel (n + 1 - k - 1) (i + k + 1) (out ++ [92, getEscape c])
        else
          wecNBlockAux wm1 inp fuel (n + 1 - k - 1) (i + k + 1) (out ++ writeControlChar c)
    else
      wecNBlockAux wm1 inp fuel (n + 1 - clampedN) (i + clampedN) (out ++ win)

/-- Vectorized length-bounded escape writer of lane width `wm1 + 1` (see
`wecNBlockAux`). -/
def wecNBlock (wm1 : Nat) (inp : List Nat) (n inIdx : Nat) (out : List Nat) : WOut :=
  wecNBlockAux wm1 inp n n inIdx out

/-- Loop of the vectorized null-terminated escape writers
(`writeEscapedChars(Enabler<ISA::SSE42|AVX2|AVX512F>)`, lines 863-979), at
byte-level semantics for lane width `wm1 + 1`: while `inIdx < inLen`, load a
window, find the first byte that needs escaping or is the null terminator,
copy the clean prefix, then stop at the null, or emit one escape, or advance
a full window. When the window extends past the end of the buffer and no
stop byte was found among the valid bytes, the outcome depends on the bytes
the wide load reads past `in_len`, which is undefined behaviour (`.oob`). -/
def wecNTBlockAux (wm1 : Nat) (inp : List Nat) : Nat → Nat → List Nat → WOut
  | 0, i, out => .oob i out
  | fuel + 1, i, out =>
    let w := wm1 + 1
    if i < inp.length then
      let win := (inp.drop i).take w
      let k := win.findIdx fun c => needsEscape c || c == 0
      if hk : k < win.length then
        let c := win.get ⟨k, hk⟩
        let out := out ++ win.take k
        if c = 0 then .ok (i + k) out
        else if getEscape c ≠ 0 then
          wecNTBlockAux wm1 inp fuel (i + k + 1) (out ++ [92, getEscape c])
        else
          wecNTBlockAux wm1 inp fuel (i + k + 1) (out ++ writeControlChar c)
      else
        if win.length < w then .oob i out
        else wecNTBlockAux wm1 inp fuel (i + w) (out ++ win)
    else .ok i out

/-- Vectorized null-terminated escape writer of lane width `wm1 + 1` (see
`wecNTBlockAux`). -/
def wecNTBlock (wm1 : Nat) (inp : List Nat) (inIdx : Nat) (out : List Nat) : WOut :=
  wecNTBlockAux wm1 inp (inp.length + 1 - min inIdx inp.length) inIdx out

/-- 16-bit-lane right shift by 4 (`_mm256_srli_epi16(doubled, 4)`) on a byte
list grouped as little-endian pairs. -/
def pairShr4 : List Nat → List Nat
  | l :: h :: rest =>
    ((l + 256 * h) >>> 4 % 256) :: ((l + 256 * h) >>> 4 / 256 % 256) :: pairShr4 rest
  | l => l

/-- The `ROT2` byte shuffle (`_mm256_shuffle_epi8(doubled, ROT2)`): each
byte pair `(l, h)` becomes `(0, l)`. -/
def rot2 : List Nat → List Nat
  | l :: _ :: rest => 0 :: l :: rot2 rest
  | l => l

/-- Vectorized ObjectId hex writer `transcodeObjectId(Enabler<ISA::AVX2>)`
(lines 995-1035): zero-extend the 12 bytes to 16-bit lanes
(`_mm256_cvtepu8_epi16`), shift right 4 for high nibbles, `ROT2`-shuffle for
low nibbles, OR, mask to 4 bits, and shuffle through the hex LUT; the 24
bytes are stored between quotes. -/
def oidAvx2 (inp : List Nat) (inIdx : Nat) (out : List Nat) : Nat × List Nat :=
  let a := (inp.drop inIdx).take 12
  let doubled := a.flatMap fun b => [b % 256, 0]
  let hi := pairShr4 doubled
  let lo := rot2 doubled
  let bytes := (List.zipWith (fun x y => x ||| y) hi lo).map fun x => x &&& 0xf
  let hexed := bytes.map fun x => HEX_DIGITS.getD x 0
  (inIdx + 12, out ++ [0x22] ++ hexed ++ [0x22])

/-- SSE2 ISA routines: the SSE2 bounded writer; overload resolution through
`Enabler` inheritance picks the BASELINE null-terminated writer and the
BASELINE ObjectId writer (no SSE2 overloads exist for those). -/
def sse2Bundle : IsaBundle :=
  { wecN := wecNBlock 15, wecNT := wecNTBase, oid := oidBase }

/-- SSE4.2 ISA routines: 16-byte-window writers; the ObjectId writer
resolves to BASELINE. -/
def sse42Bundle : IsaBundle :=
  { wecN := wecNBlock 15, wecNT := wecNTBlock 15, oid := oidBase }

/-- AVX2 ISA routines: 32-byte-window writers and the vectorized ObjectId
writer. -/
def avx2Bundle : IsaBundle :=
  { wecN := wecNBlock 31, wecNT := wecNTBlock 31, oid := oidAvx2 }

/-- AVX-512BW ISA routines: 64-byte-window writers; the ObjectId writer
resolves to the AVX2 overload through `Enabler` inheritance. -/
def avx512Bundle : IsaBundle :=
  { wecN := wecNBlock 63, wecNT := wecNTBlock 63, oid := oidAvx2 }

/-- The escape predicate agrees with the scalar writer's pass-through
condition. -/
theorem needsEscape_iff (c : Nat) :
    needsEscape c = true ↔ ¬ (c ≥ 0x20 ∧ c ≠ 0x22 ∧ c ≠ 0x5c) := by
  simp only [needsEscape, Bool.or_eq_true, decide_eq_true_eq, beq_iff_eq]
  omega

/-- Masking with 0xf is reduction mod 16. -/
theorem and_fifteen (x : Nat) : x &&& 0xf = x % 16 := by
  have h := Nat.and_pow_two_sub_one_eq_mod x 4
  norm_num at h
  exact h

/-- The vectorized nibble pipeline produces the interleaved hex digits of
the baseline ObjectId writer. -/
theorem hexPairs (a : List Nat) (hb : ∀ b ∈ a, b < 256) :
    ((List.zipWith (fun x y => x ||| y) (pairShr4 (a.flatMap fun b => [b % 256, 0]))
        (rot2 (a.flatMap fun b => [b % 256, 0]))).map fun x => x &&& 0xf).map
      (fun x => HEX_DIGITS.getD x 0) =
    a.flatMap fun b => [hexNib (b >>> 4), hexNib (b &&& 0xf)] := by
  induction a with
  | nil => rfl
  | cons b t ih =>
    have hblt : b < 256 := hb b (by simp)
    have ht : ∀ x ∈ t, x < 256 := fun x hx => hb x (by simp [hx])
    rw [List.flatMap_cons, List.flatMap_cons]
    simp only [List.cons_append, List.nil_append]
    rw [show pairShr4 (b % 256 :: 0 :: (t.flatMap fun b => [b % 256, 0])) =
        ((b % 256 + 256 * 0) >>> 4 % 256) :: ((b % 256 + 256 * 0) >>> 4 / 256 % 256) ::
          pairShr4 (t.flatMap fun b => [b % 256, 0]) from rfl]
    rw [show rot2 (b % 256 :: 0 :: (t.flatMap fun b => [b % 256, 0])) =
        0 :: b % 256 :: rot2 (t.flatMap fun b => [b % 256, 0]) from rfl]
    simp only [List.zipWith_cons_cons, List.map_cons]
    rw [ih ht]
    have hbm : b % 256 = b := Nat.mod_eq_of_lt hblt
    have e1 : ((b % 256 + 256 * 0) >>> 4 % 256 ||| 0) &&& 0xf = b >>> 4 := by
      rw [hbm, Nat.mul_zero, Nat.add_zero, Nat.or_zero, and_fifteen,
          Nat.shiftRight_eq_div_pow]
      norm_num
      omega
    have e2 : ((b % 256 + 256 * 0) >>> 4 / 256 % 256 ||| b % 256) &&& 0xf = b &&& 0xf := by
      rw [hbm, Nat.mul_zero, Nat.add_zero, Nat.shiftRight_eq_div_pow]
      norm_num
      rw [show b / 16 / 256 % 256 = 0 from by omega, Nat.zero_or]
    rw [e1, e2]
    rfl

/-- The vectorized ObjectId writer agrees with the baseline one on byte
buffers. -/
theorem oidAvx2_eq_oidBase (inp : List Nat) (i : Nat) (out : List Nat)
    (hb : ∀ b ∈ (inp.drop i).take 12, b < 256) :
    oidAvx2 inp i out = oidBase inp i out := by
  unfold oidAvx2 oidBase
  dsimp only
  rw [hexPairs ((inp.drop i).take 12) hb]


theorem wecNBase_step (inp : List Nat) (n i : Nat) (out : List Nat) (c : Nat)
    (hc : inp.get? i = some c) :
    wecNBase inp (n + 1) i out =
      if c ≥ 0x20 ∧ c ≠ 0x22 ∧ c ≠ 0x5c then wecNBase inp n (i + 1) (out ++ [c])
      else if getEscape c ≠ 0 then wecNBase inp n (i + 1) (out ++ [92, getEscape c])
      else wecNBase inp n (i + 1) (out ++ writeControlChar c) := by
  have h1 : wecNBase inp (n + 1) i out =
      (match inp.get? i with
       | none => WOut.oob i out
       | some c =>
         if c ≥ 0x20 ∧ c ≠ 0x22 ∧ c ≠ 0x5c then wecNBase inp n (i + 1) (out ++ [c])
         else if getEscape c ≠ 0 then wecNBase inp n (i + 1) (out ++ [92, getEscape c])
         else wecNBase inp n (i + 1) (out ++ writeControlChar c)) := rfl
  rw [h1, hc]

theorem get?_some_lt (inp : List Nat) (i c : Nat) (hc : inp.get? i = some c) :
    i < inp.length ∧ inp.drop i = c :: inp.drop (i + 1) := by
  have h := List.get?_eq_getElem? inp i
  rw [hc] at h
  have h2 := List.getElem?_eq_some_iff.mp h.symm
  obtain ⟨hi, hg⟩ := h2
  exact ⟨hi, by rw [List.drop_eq_getElem_cons hi, hg]⟩

theorem wecNBase_skip (inp : List Nat) (m : Nat) :
    ∀ n i out,
      (∀ j, j < m → ∃ c, inp.get? (i + j) = some c ∧ needsEscape c = false) →
      wecNBase inp (m + n) i out =
        wecNBase inp n (i + m) (out ++ (inp.drop i).take m) := by
  induction m with
  | zero => intro n i out _; simp
  | succ m ih =>
    intro n i out h
    obtain ⟨c, hc, hne⟩ := h 0 (by omega)
    rw [Nat.add_zero] at hc
    have hpass : c ≥ 0x20 ∧ c ≠ 0x22 ∧ c ≠ 0x5c := by
      by_contra hcon
      rw [← needsEscape_iff] at hcon
      rw [hcon] at hne
      exact absurd hne (by simp)
    have hstep := wecNBase_step inp (m + n) i out c hc
    rw [if_pos hpass] at hstep
    rw [show m + 1 + n = m + n + 1 from by omega, hstep]
    rw [ih n (i + 1) (out ++ [c]) (fun j hj => by
      have hx := h (j + 1) (by omega)
      rwa [show i + (j + 1) = i + 1 + j from by omega] at hx)]
    obtain ⟨hi, hdrop⟩ := get?_some_lt inp i c hc
    rw [hdrop]
    simp only [List.take_succ_cons, List.append_assoc, List.cons_append,
      List.nil_append]
    rw [show i + 1 + m = i + (m + 1) from by omega]


set_option maxHeartbeats 1000000 in
theorem wecNBlockAux_eq_base (wm1 : Nat) (inp : List Nat) :
    ∀ fuel n i out, n ≤ fuel → i + n ≤ inp.length →
      wecNBlockAux wm1 inp fuel n i out = wecNBase inp n i out := by
  intro fuel
  induction fuel with
  | zero =>
    intro n i out hn _
    have hz : n = 0 := by omega
    subst hz
    rfl
  | succ f ih =>
    intro n i out hn hb
    cases n with
    | zero => rfl
    | succ n =>
      have h1 : wecNBlockAux wm1 inp (f + 1) (n + 1) i out =
          (if (((inp.drop i).take (min (n + 1) (wm1 + 1))).findIdx needsEscape) < min (n + 1) (wm1 + 1) then
             match inp.get? (i + ((inp.drop i).take (min (n + 1) (wm1 + 1))).findIdx needsEscape) with
             | none => WOut.oob (i + ((inp.drop i).take (min (n + 1) (wm1 + 1))).findIdx needsEscape) out
             | some c =>
               if getEscape c ≠ 0 then
                 wecNBlockAux wm1 inp f
                   (n + 1 - ((inp.drop i).take (min (n + 1) (wm1 + 1))).findIdx needsEscape - 1)
                   (i + ((inp.drop i).take (min (n + 1) (wm1 + 1))).findIdx needsEscape + 1)
                   ((out ++ ((inp.drop i).take (min (n + 1) (wm1 + 1))).take
                       (((inp.drop i).take (min (n + 1) (wm1 + 1))).findIdx needsEscape)) ++
                     [92, getEscape c])
               else
                 wecNBlockAux wm1 inp f
                   (n + 1 - ((inp.drop i).take (min (n + 1) (wm1 + 1))).findIdx needsEscape - 1)
                   (i + ((inp.drop i).take (min (n + 1) (wm1 + 1))).findIdx needsEscape + 1)
                   ((out ++ ((inp.drop i).take (min (n + 1) (wm1 + 1))).take
                       (((inp.drop i).take (min (n + 1) (wm1 + 1))).findIdx needsEscape)) ++
                     writeControlChar c)
           else
             wecNBlockAux wm1 inp f (n + 1 - min (n + 1) (wm1 + 1)) (i + min (n + 1) (wm1 + 1))
               (out ++ (inp.drop i).take (min (n + 1) (wm1 + 1)))) := rfl
      rw [h1]
      set clampedN := min (n + 1) (wm1 + 1) with hcldef
      set win := (inp.drop i).take clampedN with hwdef
      set k := win.findIdx needsEscape with hkdef
      have hcl1 : 1 ≤ clampedN := by rw [hcldef]; omega
      have hclN : clampedN ≤ n + 1 := by rw [hcldef]; omega
      have hwl : win.length = clampedN := by
        rw [hwdef]
        simp [List.length_take, List.length_drop]
        omega
      by_cases hkc : k < clampedN
      · rw [if_pos hkc]
        have hik : i + k < inp.length := by omega
        have hgc : inp.get? (i + k) = some (inp.get ⟨i + k, hik⟩) := by
          rw [List.get?_eq_getElem?]
          exact List.getElem?_eq_getElem hik
        rw [hgc]
        dsimp only
        have hklen : k < win.length := by rw [hwl]; exact hkc
        have hwc : win.get ⟨k, hklen⟩ = inp.get ⟨i + k, hik⟩ := by
          simp [hwdef, List.get_eq_getElem]
        have hpc : needsEscape (inp.get ⟨i + k, hik⟩) = true := by
          rw [← hwc]
          simp only [List.get_eq_getElem]
          exact List.findIdx_getElem (w := hklen)
        have hclean : ∀ j, j < k → ∃ c', inp.get? (i + j) = some c' ∧ needsEscape c' = false := by
          intro j hj
          have hjlen : j < win.length := by omega
          have hjip : i + j < inp.length := by omega
          refine ⟨inp.get ⟨i + j, hjip⟩, ?_, ?_⟩
          · rw [List.get?_eq_getElem?]
            exact List.getElem?_eq_getElem hjip
          · have hwj : win[j] = inp.get ⟨i + j, hjip⟩ := by
              simp [hwdef, List.get_eq_getElem]
            rw [← hwj]
            exact List.not_of_lt_findIdx hj
        conv_rhs => rw [show n + 1 = k + (n + 1 - k) from by omega]
        rw [wecNBase_skip inp k (n + 1 - k) i out hclean]
        rw [show n + 1 - k = (n - k) + 1 from by omega]
        rw [wecNBase_step inp (n - k) (i + k) _ _ hgc]
        rw [if_neg ((needsEscape_iff _).mp hpc)]
        have htk : win.take k = (inp.drop i).take k := by
          rw [hwdef, List.take_take]
          congr 1
          omega
        rw [htk]
        by_cases hge : getEscape (inp.get ⟨i + k, hik⟩) ≠ 0
        · rw [if_pos hge, if_pos hge]
          rw [show n - k + 1 - 1 = n - k from by omega]
          exact ih (n - k) (i + k + 1) _ (by omega) (by omega)
        · rw [if_neg hge, if_neg hge]
          rw [show n - k + 1 - 1 = n - k from by omega]
          exact ih (n - k) (i + k + 1) _ (by omega) (by omega)
      · rw [if_neg hkc]
        have hclean : ∀ j, j < clampedN → ∃ c', inp.get? (i + j) = some c' ∧ needsEscape c' = false := by
          intro j hj
          have hjlen : j < win.length := by omega
          have hjip : i + j < inp.length := by omega
          refine ⟨inp.get ⟨i + j, hjip⟩, ?_, ?_⟩
          · rw [List.get?_eq_getElem?]
            exact List.getElem?_eq_getElem hjip
          · have hwj : win[j] = inp.get ⟨i + j, hjip⟩ := by
              simp [hwdef, List.get_eq_getElem]
            rw [← hwj]
            exact List.not_of_lt_findIdx (by omega)
        conv_rhs => rw [show n + 1 = clampedN + (n + 1 - clampedN) from by omega]
        rw [wecNBase_skip inp clampedN (n + 1 - clampedN) i out hclean]
        rw [← hwdef]
        exact ih (n + 1 - clampedN) (i + clampedN) _ (by omega) (by omega)

theorem wecNBlock_eq_base (wm1 : Nat) (inp : List Nat) (n i : Nat) (out : List Nat)
    (hb : i + n ≤ inp.length) :
    wecNBlock wm1 inp n i out = wecNBase inp n i out :=
  wecNBlockAux_eq_base wm1 inp n n i out (le_refl n) hb


theorem wecNTBase_step (inp : List Nat) (i : Nat) (out : List Nat) (c : Nat)
    (hc : inp.get? i = some c) :
    wecNTBase inp i out =
      if c = 0 then WOut.ok i out
      else if c ≥ 0x20 ∧ c ≠ 0x22 ∧ c ≠ 0x5c then wecNTBase inp (i + 1) (out ++ [c])
      else if getEscape c ≠ 0 then wecNTBase inp (i + 1) (out ++ [92, getEscape c])
      else wecNTBase inp (i + 1) (out ++ writeControlChar c) := by
  obtain ⟨hi, _⟩ := get?_some_lt inp i c hc
  unfold wecNTBase
  rw [show inp.length + 1 - i = (inp.length - i) + 1 from by omega]
  have h1 : wecNTBaseAux inp ((inp.length - i) + 1) i out =
      (match inp.get? i with
       | none => WOut.oob i out
       | some c =>
         if c = 0 then WOut.ok i out
         else if c ≥ 0x20 ∧ c ≠ 0x22 ∧ c ≠ 0x5c then
           wecNTBaseAux inp (inp.length - i) (i + 1) (out ++ [c])
         else if getEscape c ≠ 0 then
           wecNTBaseAux inp (inp.length - i) (i + 1) (out ++ [92, getEscape c])
         else wecNTBaseAux inp (inp.length - i) (i + 1) (out ++ writeControlChar c)) := rfl
  rw [h1, hc]
  dsimp only
  rw [show inp.length - i = inp.length + 1 - (i + 1) from by omega]

theorem wecNTBase_skip (inp : List Nat) (m : Nat) :
    ∀ i out,
      (∀ j, j < m → ∃ c, inp.get? (i + j) = some c ∧ needsEscape c = false) →
      wecNTBase inp i out = wecNTBase inp (i + m) (out ++ (inp.drop i).take m) := by
  induction m with
  | zero => intro i out _; simp
  | succ m ih =>
    intro i out h
    obtain ⟨c, hc, hne⟩ := h 0 (by omega)
    rw [Nat.add_zero] at hc
    have hpass : c ≥ 0x20 ∧ c ≠ 0x22 ∧ c ≠ 0x5c := by
      by_contra hcon
      rw [← needsEscape_iff] at hcon
      rw [hcon] at hne
      exact absurd hne (by simp)
    have hc0 : ¬ c = 0 := by omega
    rw [wecNTBase_step inp i out c hc, if_neg hc0, if_pos hpass]
    rw [ih (i + 1) (out ++ [c]) (fun j hj => by
      have hx := h (j + 1) (by omega)
      rwa [show i + (j + 1) = i + 1 + j from by omega] at hx)]
    obtain ⟨hi, hdrop⟩ := get?_some_lt inp i c hc
    rw [hdrop]
    simp only [List.take_succ_cons, List.append_assoc, List.cons_append, List.nil_append]
    rw [show i + 1 + m = i + (m + 1) from by omega]


theorem wecNBase_ok_bound (inp : List Nat) :
    ∀ n i out j o, wecNBase inp n i out = WOut.ok j o → n = 0 ∨ i + n ≤ inp.length := by
  intro n
  induction n with
  | zero => intro i out j o _; exact Or.inl rfl
  | succ n ih =>
    intro i out j o h
    right
    cases hc : inp.get? i with
    | none =>
      have h1 : wecNBase inp (n + 1) i out =
          (match inp.get? i with
           | none => WOut.oob i out
           | some c =>
             if c ≥ 0x20 ∧ c ≠ 0x22 ∧ c ≠ 0x5c then wecNBase inp n (i + 1) (out ++ [c])
             else if getEscape c ≠ 0 then wecNBase inp n (i + 1) (out ++ [92, getEscape c])
             else wecNBase inp n (i + 1) (out ++ writeControlChar c)) := rfl
      rw [h1, hc] at h
      exact WOut.noConfusion h
    | some c =>
      have hi : i < inp.length := (get?_some_lt inp i c hc).1
      rw [wecNBase_step inp n i out c hc] at h
      by_cases h1 : c ≥ 0x20 ∧ c ≠ 0x22 ∧ c ≠ 0x5c
      · rw [if_pos h1] at h
        rcases ih _ _ _ _ h with hz | hb <;> omega
      · rw [if_neg h1] at h
        by_cases h2 : getEscape c ≠ 0
        · rw [if_pos h2] at h
          rcases ih _ _ _ _ h with hz | hb <;> omega
        · rw [if_neg h2] at h
          rcases ih _ _ _ _ h with hz | hb <;> omega

theorem wecNTBaseAux_ok_terminator (inp : List Nat) :
    ∀ fuel i out j o, wecNTBaseAux inp fuel i out = WOut.ok j o →
      ∃ t, i ≤ t ∧ inp.get? t = some 0 := by
  intro fuel
  induction fuel with
  | zero =>
    intro i out j o h
    exact WOut.noConfusion h
  | succ fuel ih =>
    intro i out j o h
    have h1 : wecNTBaseAux inp (fuel + 1) i out =
        (match inp.get? i with
         | none => WOut.oob i out
         | some c =>
           if c = 0 then WOut.ok i out
           else if c ≥ 0x20 ∧ c ≠ 0x22 ∧ c ≠ 0x5c then
             wecNTBaseAux inp fuel (i + 1) (out ++ [c])
           else if getEscape c ≠ 0 then
             wecNTBaseAux inp fuel (i + 1) (out ++ [92, getEscape c])
           else wecNTBaseAux inp fuel (i + 1) (out ++ writeControlChar c)) := rfl
    rw [h1] at h
    cases hc : inp.get? i with
    | none =>
      rw [hc] at h
      exact WOut.noConfusion h
    | some c =>
      rw [hc] at h
      dsimp only at h
      by_cases hc0 : c = 0
      · exact ⟨i, le_refl i, by rw [hc, hc0]⟩
      · rw [if_neg hc0] at h
        by_cases h2 : c ≥ 0x20 ∧ c ≠ 0x22 ∧ c ≠ 0x5c
        · rw [if_pos h2] at h
          obtain ⟨t, ht1, ht2⟩ := ih _ _ _ _ h
          exact ⟨t, by omega, ht2⟩
        · rw [if_neg h2] at h
          by_cases h3 : getEscape c ≠ 0
          · rw [if_pos h3] at h
            obtain ⟨t, ht1, ht2⟩ := ih _ _ _ _ h
            exact ⟨t, by omega, ht2⟩
          · rw [if_neg h3] at h
            obtain ⟨t, ht1, ht2⟩ := ih _ _ _ _ h
            exact ⟨t, by omega, ht2⟩

theorem wecNTBase_ok_terminator (inp : List Nat) (i : Nat) (out : List Nat)
    (j : Nat) (o : List Nat) (h : wecNTBase inp i out = WOut.ok j o) :
    ∃ t, i ≤ t ∧ inp.get? t = some 0 :=
  wecNTBaseAux_ok_terminator inp _ i out j o h


theorem pOrZero_false (x : Nat) (h : (needsEscape x || (x == 0)) = false) :
    needsEscape x = false ∧ x ≠ 0 := by
  rw [Bool.or_eq_false_iff] at h
  exact ⟨h.1, by simpa using h.2⟩

set_option maxHeartbeats 1000000 in
theorem wecNTBlockAux_eq_base (wm1 : Nat) (inp : List Nat) :
    ∀ fuel i out, inp.length - i < fuel →
      (∃ t, i ≤ t ∧ inp.get? t = some 0) →
      wecNTBlockAux wm1 inp fuel i out = wecNTBase inp i out := by
  intro fuel
  induction fuel with
  | zero =>
    intro i out hf _
    omega
  | succ fuel ih =>
    intro i out hf ht
    obtain ⟨t, hit, ht0⟩ := ht
    have htl : t < inp.length := (get?_some_lt inp t 0 ht0).1
    have hil : i < inp.length := by omega
    have h1 : wecNTBlockAux wm1 inp (fuel + 1) i out =
        (if i < inp.length then
           let win := (inp.drop i).take (wm1 + 1)
           let k := win.findIdx fun c => needsEscape c || c == 0
           if hk : k < win.length then
             let c := win.get ⟨k, hk⟩
             let out2 := out ++ win.take k
             if c = 0 then WOut.ok (i + k) out2
             else if getEscape c ≠ 0 then
               wecNTBlockAux wm1 inp fuel (i + k + 1) (out2 ++ [92, getEscape c])
             else
               wecNTBlockAux wm1 inp fuel (i + k + 1) (out2 ++ writeControlChar c)
           else
             if win.length < wm1 + 1 then WOut.oob i out
             else wecNTBlockAux wm1 inp fuel (i + (wm1 + 1)) (out ++ win)
         else WOut.ok i out) := rfl
    rw [h1]
    dsimp only
    rw [if_pos hil]
    set win := (inp.drop i).take (wm1 + 1) with hwdef
    set k := win.findIdx (fun c => needsEscape c || c == 0) with hkdef
    have hkle : k ≤ win.length := by
      rw [hkdef]
      exact List.findIdx_le_length _
    have hwl : win.length = min (wm1 + 1) (inp.length - i) := by
      rw [hwdef]
      simp [List.length_take, List.length_drop]
    have hterm : ∀ j (hjl : j < win.length), inp.get? (i + j) = some (win.get ⟨j, hjl⟩) := by
      intro j hjl
      have hjip : i + j < inp.length := by omega
      have hwj : win.get ⟨j, hjl⟩ = inp.get ⟨i + j, hjip⟩ := by
        simp [hwdef, List.get_eq_getElem]
      rw [hwj, List.get?_eq_getElem?]
      exact List.getElem?_eq_getElem hjip
    have hclean : ∀ j, j < k → ∃ c', inp.get? (i + j) = some c' ∧ needsEscape c' = false ∧ c' ≠ 0 := by
      intro j hj
      have hjl : j < win.length := by omega
      refine ⟨win.get ⟨j, hjl⟩, hterm j hjl, ?_⟩
      have hp : (fun c => needsEscape c || c == 0) win[j] = false := List.not_of_lt_findIdx hj
      simp only [List.get_eq_getElem]
      exact pOrZero_false _ hp
    have htin : ∀ m, m ≤ win.length →
        (∀ j, j < m → (hjl : j < win.length) → win.get ⟨j, hjl⟩ ≠ 0) →
        i + m ≤ t := by
      intro m hmw hnz
      by_contra hcon
      have htm : t - i < m := by omega
      have hjl : t - i < win.length := by omega
      have hx := hterm (t - i) hjl
      rw [show i + (t - i) = t from by omega, ht0] at hx
      refine hnz (t - i) htm hjl ?_
      injection hx with hh
      omega
    by_cases hkc : k < win.length
    · rw [dif_pos hkc]
      have hgc := hterm k hkc
      have hpk : (needsEscape (win.get ⟨k, hkc⟩) || (win.get ⟨k, hkc⟩ == 0)) = true := by
        have h : (fun c => needsEscape c || c == 0) win[k] = true :=
          @List.findIdx_getElem _ (fun c => needsEscape c || c == 0) win hkc
        simpa [List.get_eq_getElem] using h
      have hskip := wecNTBase_skip inp k i out
        (fun j hj => by
          obtain ⟨c', hc1, hc2, _⟩ := hclean j hj
          exact ⟨c', hc1, hc2⟩)
      rw [hskip]
      have htk : win.take k = (inp.drop i).take k := by
        rw [hwdef, List.take_take]
        congr 1
        omega
      by_cases hc0 : win.get ⟨k, hkc⟩ = 0
      · rw [if_pos hc0]
        rw [wecNTBase_step inp (i + k) (out ++ (inp.drop i).take k) 0 (by rw [← hc0]; exact hgc)]
        rw [if_pos rfl, htk]
      · rw [if_neg hc0]
        have hne : needsEscape (win.get ⟨k, hkc⟩) = true := by
          rcases Bool.or_eq_true_iff.mp hpk with he | he
          · exact he
          · exact absurd (by simpa using he) hc0
        rw [wecNTBase_step inp (i + k) (out ++ (inp.drop i).take k) _ hgc]
        rw [if_neg hc0, if_neg ((needsEscape_iff _).mp hne), htk]
        have htnext : t ≥ i + k + 1 := by
          have := htin (k + 1) (by omega) (fun j hj hjl => by
            rcases Nat.lt_or_ge j k with hjk | hjk
            · obtain ⟨c', hc1, hc2, hc3⟩ := hclean j hjk
              have hx := hterm j hjl
              rw [hc1] at hx
              injection hx with hh
              rw [← hh]
              exact hc3
            · have hjeq : j = k := by omega
              subst hjeq
              exact hc0)
          omega
        by_cases hge : getEscape (win.get ⟨k, hkc⟩) ≠ 0
        · rw [if_pos hge, if_pos hge]
          exact ih (i + k + 1) _ (by omega) ⟨t, by omega, ht0⟩
        · rw [if_neg hge, if_neg hge]
          exact ih (i + k + 1) _ (by omega) ⟨t, by omega, ht0⟩
    · rw [dif_neg hkc]
      have hcleanall : ∀ j, (hjl : j < win.length) → win.get ⟨j, hjl⟩ ≠ 0 := by
        intro j hjl
        obtain ⟨c', hc1, hc2, hc3⟩ := hclean j (by omega)
        have hx := hterm j hjl
        rw [hc1] at hx
        injection hx with hh
        rw [← hh]
        exact hc3
      have hwfull : ¬ win.length < wm1 + 1 := by
        intro hlt
        have := htin win.length (le_refl _) (fun j _ hjl => hcleanall j hjl)
        omega
      rw [if_neg hwfull]
      have hskip := wecNTBase_skip inp (wm1 + 1) i out
        (fun j hj => by
          obtain ⟨c', hc1, hc2, _⟩ := hclean j (by omega)
          exact ⟨c', hc1, hc2⟩)
      rw [hskip, ← hwdef]
      have htnext := htin win.length (le_refl _) (fun j _ hjl => hcleanall j hjl)
      rw [show i + (wm1 + 1) = i + win.length from by omega]
      exact ih (i + win.length) _ (by omega) ⟨t, by omega, ht0⟩

theorem wecNTBlock_eq_base (wm1 : Nat) (inp : List Nat) (i : Nat) (out : List Nat)
    (ht : ∃ t, i ≤ t ∧ inp.get? t = some 0) :
    wecNTBlock wm1 inp i out = wecNTBase inp i out := by
  obtain ⟨t, hit, ht0⟩ := ht
  have htl : t < inp.length := (get?_some_lt inp t 0 ht0).1
  exact wecNTBlockAux_eq_base wm1 inp (inp.length + 1 - min i inp.length) i out
    (by omega) ⟨t, hit, ht0⟩


theorem wecNBlock_eq_base_of_ok (wm1 : Nat) (inp : List Nat) (n i : Nat)
    (out : List Nat) (j : Nat) (o : List Nat)
    (h : wecNBase inp n i out = WOut.ok j o) :
    wecNBlock wm1 inp n i out = wecNBase inp n i out := by
  rcases wecNBase_ok_bound inp n i out j o h with hz | hb
  · subst hz
    rfl
  · exact wecNBlock_eq_base wm1 inp n i out hb

theorem wecNTBlock_eq_base_of_ok (wm1 : Nat) (inp : List Nat) (i : Nat)
    (out : List Nat) (j : Nat) (o : List Nat)
    (h : wecNTBase inp i out = WOut.ok j o) :
    wecNTBlock wm1 inp i out = wecNTBase inp i out :=
  wecNTBlock_eq_base wm1 inp i out (wecNTBase_ok_terminator inp i out j o h)

def completes : TRes → Bool
  | .ok _ => true
  | .err _ _ => true
  | .oob _ => false
  | .spin => false

theorem transcodeOidValue_agree (B : IsaBundle) (paths : Paths) (inp : List Nat)
    (baseKey : List Nat) (st : TState)
    (hOid : ∀ i out, i + 12 ≤ inp.length → B.oid inp i out = oidBase inp i out) :
    transcodeOidValue B paths inp baseKey st =
      transcodeOidValue baselineBundle paths inp baseKey st := by
  unfold transcodeOidValue
  by_cases hg : st.inIdx + 12 ≤ inp.length
  · rw [if_pos hg, if_pos hg]
    dsimp only
    by_cases hd : baseKey = [] ∧ st.currentPath = strBytes "_id"
    · rw [if_pos hd]
      dsimp only
      cases hmatch : List.lookup st.currentPath paths with
      | none =>
        dsimp only
        rw [hOid st.inIdx st.out hg]
        rfl
      | some m =>
        dsimp only
        cases hm2 : List.lookup (List.take 12 (List.drop st.inIdx inp)) m with
        | none =>
          dsimp only
          rw [hOid st.inIdx st.out hg]
          rfl
        | some doc =>
          rfl
    · rw [if_neg hd]
      cases hmatch : List.lookup st.currentPath paths with
      | none =>
        dsimp only
        rw [hOid st.inIdx st.out hg]
        rfl
      | some m =>
        dsimp only
        cases hm2 : List.lookup (List.take 12 (List.drop st.inIdx inp)) m with
        | none =>
          dsimp only
          rw [hOid st.inIdx st.out hg]
          rfl
        | some doc =>
          rfl
  · rw [if_neg hg, if_neg hg]


set_option maxHeartbeats 2000000 in
theorem walker_lift (B : IsaBundle) (dtoa : List Nat → List Nat) (paths : Paths)
    (inp : List Nat)
    (hN : ∀ n i out j o, wecNBase inp n i out = WOut.ok j o →
      B.wecN inp n i out = wecNBase inp n i out)
    (hNT : ∀ i out j o, wecNTBase inp i out = WOut.ok j o →
      B.wecNT inp i out = wecNTBase inp i out)
    (hOid : ∀ i out, i + 12 ≤ inp.length → B.oid inp i out = oidBase inp i out) :
    ∀ fuel,
      (∀ isArray baseKey st,
        completes (transcodeObject baselineBundle dtoa paths inp fuel isArray baseKey st) = true →
        transcodeObject B dtoa paths inp fuel isArray baseKey st =
          transcodeObject baselineBundle dtoa paths inp fuel isArray baseKey st) ∧
      (∀ isArray baseKey arrIdx st,
        completes (transcodeLoop baselineBundle dtoa paths inp fuel isArray baseKey arrIdx st) = true →
        transcodeLoop B dtoa paths inp fuel isArray baseKey arrIdx st =
          transcodeLoop baselineBundle dtoa paths inp fuel isArray baseKey arrIdx st) ∧
      (∀ isArray baseKey arrIdx elementType st,
        completes (transcodeElem baselineBundle dtoa paths inp fuel isArray baseKey arrIdx elementType st) = true →
        transcodeElem B dtoa paths inp fuel isArray baseKey arrIdx elementType st =
          transcodeElem baselineBundle dtoa paths inp fuel isArray baseKey arrIdx elementType st) := by
  intro fuel
  induction fuel with
  | zero => exact ⟨fun _ _ _ _ => rfl, fun _ _ _ _ _ => rfl, fun _ _ _ _ _ _ => rfl⟩
  | succ f ih =>
    obtain ⟨ihO, ihL, ihE⟩ := ih
    refine ⟨?_, ?_, ?_⟩
    · intro isArray baseKey st h
      simp only [transcodeObject] at h ⊢
      rcases hr : readLE32 inp st.inIdx with _ | size
      · rfl
      · rw [hr] at h
        dsimp only at h ⊢
        by_cases h5 : size < 5
        · simp only [if_pos h5]
        · simp only [if_neg h5] at h ⊢
          by_cases hex : size.toNat + (st.inIdx + 4) - 4 > inp.length
          · simp only [if_pos hex]
          · simp only [if_neg hex] at h ⊢
            exact ihL _ _ _ _ h
    · intro isArray baseKey arrIdx st h
      simp only [transcodeLoop] at h ⊢
      rcases hg : inp.get? st.inIdx with _ | et
      · rfl
      · rw [hg] at h
        dsimp only at h ⊢
        by_cases h0 : et = 0
        · simp only [if_pos h0]
        · simp only [if_neg h0] at h ⊢
          by_cases hc : arrIdx ≠ 0
          · simp only [if_pos hc] at h ⊢
            by_cases hA : isArray = true
            · simp only [if_pos hA] at h ⊢
              exact ihE _ _ _ _ _ h
            · simp only [if_neg hA] at h ⊢
              dsimp only [baselineBundle] at h ⊢
              split at h
              · rename_i i o heq
                simp [completes] at h
              · rename_i i o heq
                rw [hNT _ _ _ _ heq, heq]
                dsimp only
                exact ihE _ _ _ _ _ h
          · simp only [if_neg hc] at h ⊢
            by_cases hA : isArray = true
            · simp only [if_pos hA] at h ⊢
              exact ihE _ _ _ _ _ h
            · simp only [if_neg hA] at h ⊢
              dsimp only [baselineBundle] at h ⊢
              split at h
              · rename_i i o heq
                simp [completes] at h
              · rename_i i o heq
                rw [hNT _ _ _ _ heq, heq]
                dsimp only
                exact ihE _ _ _ _ _ h
    · intro isArray baseKey arrIdx elementType st h
      simp only [transcodeElem] at h ⊢
      by_cases ht1 : elementType = BSON_DATA_STRING
      · simp only [if_pos ht1] at h ⊢
        rcases hr : readLE32 inp st.inIdx with _ | size
        · rfl
        · rw [hr] at h
          dsimp only at h ⊢
          by_cases hbad : size ≤ 0 ∨ size.toNat > inp.length - (st.inIdx + 4)
          · simp only [if_pos hbad]
          · simp only [if_neg hbad] at h ⊢
            dsimp only [baselineBundle] at h ⊢
            split at h
            · rename_i i o heq
              simp [completes] at h
            · rename_i i o heq
              rw [hN _ _ _ _ _ heq, heq]
              dsimp only
              exact ihL _ _ _ _ h
      · simp only [if_neg ht1] at h ⊢
        by_cases ht2 : elementType = BSON_DATA_OID
        · simp only [if_pos ht2] at h ⊢
          rw [transcodeOidValue_agree B paths inp baseKey st hOid]
          split at h
          · exact ihL _ _ _ _ h
          · rfl
        · simp only [if_neg ht2] at h ⊢
          by_cases ht3 : elementType = BSON_DATA_INT
          · simp only [if_pos ht3] at h ⊢
            by_cases hg4 : st.inIdx + 4 ≤ inp.length
            · simp only [if_pos hg4] at h ⊢
              rcases hr : readLE32 inp st.inIdx with _ | v
              · rfl
              · rw [hr] at h
                dsimp only at h ⊢
                exact ihL _ _ _ _ h
            · simp only [if_neg hg4]
          · simp only [if_neg ht3] at h ⊢
            by_cases ht4 : elementType = BSON_DATA_NUMBER
            · simp only [if_pos ht4] at h ⊢
              by_cases hg8 : st.inIdx + 8 ≤ inp.length
              · simp only [if_pos hg8] at h ⊢
                exact ihL _ _ _ _ h
              · simp only [if_neg hg8]
            · simp only [if_neg ht4] at h ⊢
              by_cases ht5 : elementType = BSON_DATA_DATE
              · simp only [if_pos ht5] at h ⊢
                by_cases hg8 : st.inIdx + 8 ≤ inp.length
                · simp only [if_pos hg8] at h ⊢
                  rcases hr : readLE64 inp st.inIdx with _ | v
                  · rfl
                  · rw [hr] at h
                    dsimp only at h ⊢
                    exact ihL _ _ _ _ h
                · simp only [if_neg hg8]
              · simp only [if_neg ht5] at h ⊢
                by_cases ht6 : elementType = BSON_DATA_BOOLEAN
                · simp only [if_pos ht6] at h ⊢
                  by_cases hg1 : st.inIdx + 1 ≤ inp.length
                  · simp only [if_pos hg1] at h ⊢
                    rcases hr : inp.get? st.inIdx with _ | v
                    · rfl
                    · rw [hr] at h
                      dsimp only at h ⊢
                      exact ihL _ _ _ _ h
                  · simp only [if_neg hg1]
                · simp only [if_neg ht6] at h ⊢
                  by_cases ht7 : elementType = BSON_DATA_OBJECT
                  · simp only [if_pos ht7] at h ⊢
                    split at h
                    · rename_i st' heq
                      have hco : completes (transcodeObject baselineBundle dtoa paths inp f false st.currentPath st) = true := by
                        rw [heq]
                        rfl
                      rw [ihO _ _ _ hco, heq]
                      dsimp only
                      exact ihL _ _ _ _ h
                    · rename_i r hne
                      rw [ihO _ _ _ h]
                      cases hob : transcodeObject baselineBundle dtoa paths inp f false st.currentPath st with
                      | ok st' => exact ((hne st' hob).elim)
                      | err m s => rfl
                      | oob s => simp [hob, completes] at h
                      | spin => simp [hob, completes] at h
                  · simp only [if_neg ht7] at h ⊢
                    by_cases ht8 : elementType = BSON_DATA_ARRAY
                    · simp only [if_pos ht8] at h ⊢
                      split at h
                      · rename_i st' heq
                        have hco : completes (transcodeObject baselineBundle dtoa paths inp f true st.currentPath st) = true := by
                          rw [heq]
                          rfl
                        rw [ihO _ _ _ hco, heq]
                        dsimp only
                        rcases hb : inp.get? (st'.inIdx - 1) with _ | b
                        · rfl
                        · rw [hb] at h
                          dsimp only at h ⊢
                          by_cases hbz : b ≠ 0
                          · simp only [if_pos hbz]
                          · simp only [if_neg hbz] at h ⊢
                            exact ihL _ _ _ _ h
                      · rename_i r hne
                        rw [ihO _ _ _ h]
                        cases hob : transcodeObject baselineBundle dtoa paths inp f true st.currentPath st with
                        | ok st' => exact ((hne st' hob).elim)
                        | err m s => rfl
                        | oob s => simp [hob, completes] at h
                        | spin => simp [hob, completes] at h
                    · simp only [if_neg ht8] at h ⊢
                      by_cases ht9 : elementType = BSON_DATA_NULL
                      · simp only [if_pos ht9] at h ⊢
                        exact ihL _ _ _ _ h
                      · simp only [if_neg ht9] at h ⊢
                        by_cases ht10 : elementType = BSON_DATA_LONG
                        · simp only [if_pos ht10] at h ⊢
                          by_cases hg8 : st.inIdx + 8 ≤ inp.length
                          · simp only [if_pos hg8] at h ⊢
                            rcases hr : readLE64 inp st.inIdx with _ | v
                            · rfl
                            · rw [hr] at h
                              dsimp only at h ⊢
                              exact ihL _ _ _ _ h
                          · simp only [if_neg hg8]
                        · simp only [if_neg ht10] at h ⊢
                          by_cases ht11 : elementType = BSON_DATA_UNDEFINED
                          · simp only [if_pos ht11] at h ⊢
                            exact ihL _ _ _ _ h
                          · simp only [if_neg ht11] at h ⊢


/-- A 21-byte document whose single element (type NULL, tag 0x0a) has a
16-byte field name with no null terminator inside the buffer: the
null-terminated name scan runs past `in_len` in every ISA, but the ISAs
read different amounts of out-of-bounds memory before stopping. -/
def c7Doc : List Nat := [0x15, 0, 0, 0, 0x0a] ++ List.replicate 16 0x61

/-- A well-formed 14-byte document `{"a": "b"}` used to witness the
cross-ISA agreement theorem on a completing run. -/
def c7WitDoc : List Nat := [14, 0, 0, 0, 2, 0x61, 0, 2, 0, 0, 0, 0x62, 0, 0]

/-- C7 counterexample: on `c7Doc`, whose field name lacks a terminator
before `in_len`, the baseline walker stops with an out-of-bounds read at
input index 21 having written 18 bytes, while the SSE4.2 walker's
16-byte-window name scan leaves the buffer differently, writes 24 bytes
(including a spurious `":null`), and goes out of bounds at index 22: the
two ISA tiers do not produce identical results on every input. -/
theorem c7_isa_tiers_diverge :
    transcodeObject baselineBundle dtoaNone [] c7Doc 30 false [] (initState []) =
      .oob { inIdx := 21,
             out := [123, 34] ++ List.replicate 16 97,
             currentPath := [], docId := List.replicate 12 0, missing := [] } ∧
    transcodeObject sse42Bundle dtoaNone [] c7Doc 30 false [] (initState []) =
      .oob { inIdx := 22,
             out := [123, 34] ++ List.replicate 16 97 ++ [34, 58, 110, 117, 108, 108],
             currentPath := List.replicate 16 97,
             docId := List.replicate 12 0, missing := [] } ∧
    transcodeObject sse42Bundle dtoaNone [] c7Doc 30 false [] (initState []) ≠
      transcodeObject baselineBundle dtoaNone [] c7Doc 30 false [] (initState []) := by
  exact ⟨by decide, by decide, by decide⟩

/-- C7 (amended): the model is a pure function of the input, so two runs with
the same ISA are identical by definition; and on every run in which the
baseline walker completes (returns `.ok` or `.err`, never touching memory
outside the input buffer) over a buffer of genuine bytes, all four
vectorized ISA tiers (SSE2, SSE4.2, AVX2, AVX-512BW) return results
bit-identical to the baseline tier. -/
theorem c7_amended_isa_agreement (dtoa : List Nat → List Nat) (paths : Paths)
    (inp : List Nat) (fuel : Nat) (isArray : Bool) (baseKey : List Nat) (st : TState)
    (hbytes : ∀ b ∈ inp, b < 256)
    (hcomp : completes (transcodeObject baselineBundle dtoa paths inp fuel isArray baseKey st) = true) :
    transcodeObject sse2Bundle dtoa paths inp fuel isArray baseKey st =
        transcodeObject baselineBundle dtoa paths inp fuel isArray baseKey st ∧
    transcodeObject sse42Bundle dtoa paths inp fuel isArray baseKey st =
        transcodeObject baselineBundle dtoa paths inp fuel isArray baseKey st ∧
    transcodeObject avx2Bundle dtoa paths inp fuel isArray baseKey st =
        transcodeObject baselineBundle dtoa paths inp fuel isArray baseKey st ∧
    transcodeObject avx512Bundle dtoa paths inp fuel isArray baseKey st =
        transcodeObject baselineBundle dtoa paths inp fuel isArray baseKey st := by
  have hoid2 : ∀ i out, i + 12 ≤ inp.length → oidAvx2 inp i out = oidBase inp i out :=
    fun i out _ => oidAvx2_eq_oidBase inp i out
      (fun b hb2 => hbytes b (List.mem_of_mem_drop (List.mem_of_mem_take hb2)))
  refine ⟨?_, ?_, ?_, ?_⟩
  · exact (walker_lift sse2Bundle dtoa paths inp
      (fun n i out j o h => wecNBlock_eq_base_of_ok 15 inp n i out j o h)
      (fun i out j o h => rfl)
      (fun i out hle => rfl) fuel).1 isArray baseKey st hcomp
  · exact (walker_lift sse42Bundle dtoa paths inp
      (fun n i out j o h => wecNBlock_eq_base_of_ok 15 inp n i out j o h)
      (fun i out j o h => wecNTBlock_eq_base_of_ok 15 inp i out j o h)
      (fun i out hle => rfl) fuel).1 isArray baseKey st hcomp
  · exact (walker_lift avx2Bundle dtoa paths inp
      (fun n i out j o h => wecNBlock_eq_base_of_ok 31 inp n i out j o h)
      (fun i out j o h => wecNTBlock_eq_base_of_ok 31 inp i out j o h)
      hoid2 fuel).1 isArray baseKey st hcomp
  · exact (walker_lift avx512Bundle dtoa paths inp
      (fun n i out j o h => wecNBlock_eq_base_of_ok 63 inp n i out j o h)
      (fun i out j o h => wecNTBlock_eq_base_of_ok 63 inp i out j o h)
      hoid2 fuel).1 isArray baseKey st hcomp

/-- Witness for the amended C7 theorem: on the well-formed document
`{"a": "b"}` the baseline run completes and all four vectorized tiers
agree with it. -/
theorem c7_amended_isa_agreement_witness :
    (∀ b ∈ c7WitDoc, b < 256) ∧
    completes (transcodeObject baselineBundle dtoaNone [] c7WitDoc 5 false [] (initState [])) = true ∧
    (transcodeObject sse2Bundle dtoaNone [] c7WitDoc 5 false [] (initState []) =
        transcodeObject baselineBundle dtoaNone [] c7WitDoc 5 false [] (initState []) ∧
     transcodeObject sse42Bundle dtoaNone [] c7WitDoc 5 false [] (initState []) =
        transcodeObject baselineBundle dtoaNone [] c7WitDoc 5 false [] (initState []) ∧
     transcodeObject avx2Bundle dtoaNone [] c7WitDoc 5 false [] (initState []) =
        transcodeObject baselineBundle dtoaNone [] c7WitDoc 5 false [] (initState []) ∧
     transcodeObject avx512Bundle dtoaNone [] c7WitDoc 5 false [] (initState []) =
        transcodeObject baselineBundle dtoaNone [] c7WitDoc 5 false [] (initState [])) :=
  ⟨by decide, rfl,
   c7_amended_isa_agreement dtoaNone [] c7WitDoc 5 false [] (initState [])
     (by decide) rfl⟩

end BsonToJson
